import Mathlib

/-!
# Verification of the STUTTER interpreter core (src/src/sipd.c, lisp segment)

Shallow embedding of the cell heap, allocator, mark-and-sweep garbage
collector, atom table and evaluator of the STUTTER lisp interpreter.
Heap cells are indexed by natural numbers (a `CELL *` is an `Option Nat`,
`none` standing for the C `NULL`).  The payload slots of a cell hold either
a cell pointer, an atom's printable name, or a reference to a host
primitive, mirroring the C `void *car, *cdr` whose interpretation depends
on the type tag.  Reading a slot at the wrong type (which in C would
reinterpret raw bits) is modelled as the distinguished `Err.ub` outcome;
the fatal heap-exhaustion `exit(1)` is `Err.fatal`; recursion in the C
source that needs no termination argument is given an explicit fuel
parameter, with `Err.timeout` for exhausted fuel.  Error diagnostics
(`printf` of an error message) are modelled by a counter `diags` in the
state.  The C functions are translated one definition per function,
keeping their names and statement order.
-/

namespace Stutter

/-- The five cell type tags of `CELL_ENUM`. -/
inductive CellType where
  | lambda
  | sfunc
  | vfunc
  | list
  | atom
deriving DecidableEq, Repr

/-- The host primitives that can sit in the `car` of an sfunc/vfunc cell
(the C function pointers installed by `initialize`). -/
inductive Prim where
  | pcar
  | pcdr
  | pcons
  | pset
  | pequal
  | pquote
  | plambda
  | pif
deriving DecidableEq, Repr

/-- One payload slot of a cell: a cell pointer (possibly NULL), an atom
name, or a host primitive reference.  In C all three are a `void *`. -/
inductive Slot where
  | ptr (p : Option Nat)
  | name (s : String)
  | prim (p : Prim)
deriving DecidableEq, Repr

/-- Reading a slot as a cell pointer, as the collector's `mark` does via
`cell_car`/`cell_cdr`.  A non-pointer slot never occurs there in a
well-formed heap (the theorems assume well-formedness); it is mapped to
`none` so that `mark` stays total. -/
def Slot.ptrOf : Slot → Option Nat
  | .ptr p => p
  | _ => none

/-- The C `CELL`: two payload slots, the type tag and the mark bit. -/
structure Cell where
  car : Slot
  cdr : Slot
  type : CellType
  mark : Bool
deriving DecidableEq, Repr

/-- The global state of the interpreter: the fixed cell heap, the free
list head, the binding list head, the protection stack (head = top,
i.e. `protect_table[protect_used - 1]`), the four distinguished cells
installed by `initialize`, and the count of error diagnostics printed. -/
structure State where
  heap : List Cell
  freeList : Option Nat
  bindingList : Option Nat
  protect : List (Option Nat)
  nilIdx : Nat
  errorIdx : Nat
  trueIdx : Nat
  quoteIdx : Nat
  diags : Nat
deriving DecidableEq, Repr

/-- Abnormal outcomes: `fatal` is the `exit(1)` on heap exhaustion,
`ub` is a memory access the C source would perform on a malformed heap
(dereferencing NULL or reading a slot at the wrong type), `timeout` is
exhausted fuel for recursion of the C source that is not structurally
terminating. -/
inductive Err where
  | fatal
  | ub
  | timeout
deriving DecidableEq, Repr

deriving instance DecidableEq for Except

/-- Outcome of an interpreter operation. -/
abbrev Res (α : Type) : Type := Except Err α

/-- `s.heap[i]`, if `i` is a valid cell index. -/
def heapAt (s : State) (i : Nat) : Option Cell := s.heap.get? i

/-- Dereference a cell index, `Err.ub` when dangling. -/
def getCell (s : State) (i : Nat) : Res Cell :=
  match s.heap.get? i with
  | some c => .ok c
  | none => .error .ub

/-- `cell_car(c)` read as a cell pointer. -/
def carPtr (s : State) (i : Nat) : Res (Option Nat) := do
  let c ← getCell s i
  match c.car with
  | .ptr p => .ok p
  | _ => .error .ub

/-- `cell_cdr(c)` read as a cell pointer. -/
def cdrPtr (s : State) (i : Nat) : Res (Option Nat) := do
  let c ← getCell s i
  match c.cdr with
  | .ptr p => .ok p
  | _ => .error .ub

/-- `cell_name(c)`: the car slot read as an atom name. -/
def nameOf (s : State) (i : Nat) : Res String := do
  let c ← getCell s i
  match c.car with
  | .name n => .ok n
  | _ => .error .ub

/-- `cell_func(c)`: the car slot read as a primitive reference. -/
def funcOf (s : State) (i : Nat) : Res Prim := do
  let c ← getCell s i
  match c.car with
  | .prim p => .ok p
  | _ => .error .ub

/-- Overwrite the cell at index `i` (no-op when `i` is out of range;
every use in the source writes to a freshly allocated, hence valid,
index). -/
def setCell (s : State) (i : Nat) (c : Cell) : State :=
  { s with heap := s.heap.set i c }

/-- `cell_car_assign`. -/
def setCar (s : State) (i : Nat) (v : Slot) : State :=
  match s.heap.get? i with
  | some c => setCell s i { c with car := v }
  | none => s

/-- `cell_cdr_assign`. -/
def setCdr (s : State) (i : Nat) (v : Slot) : State :=
  match s.heap.get? i with
  | some c => setCell s i { c with cdr := v }
  | none => s

/-- `protect(cell)`: push a (possibly NULL) cell reference on the
protection stack. -/
def protectPush (s : State) (p : Option Nat) : State :=
  { s with protect := p :: s.protect }

/-- `unprotect()`: `protect_used--`. -/
def unprotectS (s : State) : State :=
  { s with protect := s.protect.tail }

/-! ## The garbage collector -/

/-- The cell children the collector recurses into from cell `i`: both
payload slots, read as pointers, but only for `CELL_LAMBDA` and
`CELL_LIST` cells. -/
def kids (h : List Cell) (i : Nat) : List Nat :=
  match h.get? i with
  | some c =>
      if c.type = .lambda ∨ c.type = .list then
        c.car.ptrOf.toList ++ c.cdr.ptrOf.toList
      else []
  | none => []

/-- The mark bit of cell `i` (`false` when `i` is out of range). -/
def getMark (h : List Cell) (i : Nat) : Bool :=
  match h.get? i with
  | some c => c.mark
  | none => false

/-- `mark(cell)`: depth-first marking of every cell reachable from the
given root.  The C recursion terminates because each call marks its cell
before recursing; the embedding makes that explicit with a fuel that the
collector instantiates with `heap_size + 1`, which the development proves
sufficient. -/
def mark : Nat → List Cell → Option Nat → List Cell
  | 0, h, _ => h
  | _ + 1, h, none => h
  | fuel + 1, h, some i =>
    match h.get? i with
    | none => h
    | some c =>
      if c.mark then h
      else
        let h1 := h.set i { c with mark := true }
        if c.type = .lambda ∨ c.type = .list then
          mark fuel (mark fuel h1 c.car.ptrOf) c.cdr.ptrOf
        else h1

/-- The sweep loop of `garbage_collect`, over the list of heap indices:
an unmarked cell has its car overwritten with the current free list head
and becomes the new head (`count++`); every swept cell has its mark bit
cleared. -/
def sweepGo : List Nat → List Cell → Option Nat → Nat → List Cell × Option Nat × Nat
  | [], h, f, c => (h, f, c)
  | i :: rest, h, f, c =>
    match h.get? i with
    | none => sweepGo rest h f c
    | some cell =>
      if cell.mark then sweepGo rest (h.set i { cell with mark := false }) f c
      else sweepGo rest (h.set i { cell with car := .ptr f, mark := false }) (some i) (c + 1)

/-- The heap after the mark phase of `garbage_collect`: mark from
`binding_list`, then from each protection-stack entry in table order. -/
def markPhase (s : State) : List Cell :=
  let n := s.heap.length
  let h1 := mark (n + 1) s.heap s.bindingList
  s.protect.reverse.foldl (fun h r => mark (n + 1) h r) h1

/-- `garbage_collect()`: mark phase, then linear sweep; if the sweep
frees no cell the process exits (`Err.fatal`). -/
def garbageCollect (s : State) : Res State :=
  let h2 := markPhase s
  let (h3, f, count) := sweepGo (List.range s.heap.length) h2 s.freeList 0
  if count = 0 then .error .fatal
  else .ok { s with heap := h3, freeList := f }

/-- `new_cell(type)`: pop a cell off the free list, collecting first when
the free list is empty; reset its tag, payload slots and mark bit.  The
one-time lazy setup of the heap in the C source is the construction of
the initial `State`, not part of this operation. -/
def newCell (s : State) (ty : CellType) : Res (Nat × State) := do
  let s ← if s.freeList = none then garbageCollect s else pure s
  match s.freeList with
  | none => .error .ub
  | some i => do
    let fnext ← carPtr s i
    let s := setCell s i ⟨.ptr none, .ptr none, ty, false⟩
    .ok (i, { s with freeList := fnext })

/-! ## The atom table -/

/-- The search loop of `new_atom`: scan the binding list for an atom cell
whose name matches (exact string comparison, as `strcmp(...) == 0`). -/
def lookupAtom : Nat → State → Option Nat → String → Res (Option Nat)
  | 0, _, _, _ => .error .timeout
  | fuel + 1, s, cur, nm =>
    match cur with
    | none => .ok none
    | some ci =>
      if ci = s.nilIdx then .ok none
      else do
        let pairP ← carPtr s ci
        match pairP with
        | none => .error .ub
        | some pi => do
          let aP ← carPtr s pi
          match aP with
          | none => .error .ub
          | some ai => do
            let an ← nameOf s ai
            if an = nm then .ok (some ai)
            else do
              let nxt ← cdrPtr s ci
              lookupAtom fuel s nxt nm

/-- `new_atom(name)`: return the interned atom with this name if present;
otherwise allocate a pair cell and an atom cell, then a binding-list spine
cell (protecting only the pair across that third allocation), prepend the
pair to the binding list and return the new atom. -/
def newAtom (fuel : Nat) (s : State) (nm : String) : Res (Nat × State) := do
  match ← lookupAtom fuel s s.bindingList nm with
  | some a => .ok (a, s)
  | none => do
    let (current, s) ← newCell s .list
    let (atom, s) ← newCell s .atom
    let s := setCar s current (.ptr (some atom))
    let s := setCdr s current (.ptr none)
    let s := setCar s atom (.name nm)
    let s := protectPush s (some current)
    let (lst, s) ← newCell s .list
    let s := unprotectS s
    let s := setCar s lst (.ptr (some current))
    let s := setCdr s lst (.ptr s.bindingList)
    .ok (atom, { s with bindingList := some lst })

/-! ## Value functions -/

/-- `cons(a, b)`: propagate the error cell, require `b` to be a list or
the empty list (diagnostic + error otherwise), then allocate a list cell
with car `a` and cdr `b` (`NULL` when `b` is the empty list), protecting
`a` and `b` across the allocation. -/
def cons (s : State) (a b : Option Nat) : Res (Option Nat × State) := do
  if a = some s.errorIdx ∨ b = some s.errorIdx then .ok (some s.errorIdx, s)
  else
    match b with
    | none => .error .ub
    | some bi => do
      let bc ← getCell s bi
      if ¬(bc.type = .list ∨ bi = s.nilIdx) then
        .ok (some s.errorIdx, { s with diags := s.diags + 1 })
      else do
        let s := protectPush s a
        let s := protectPush s b
        let (c, s) ← newCell s .list
        let s := unprotectS (unprotectS s)
        let s := setCar s c (.ptr a)
        let s := if bi = s.nilIdx then setCdr s c (.ptr none) else setCdr s c (.ptr b)
        .ok (some c, s)

/-- `car(a, b)`: error on the error cell, the empty list on the empty
list, a diagnostic + error on a non-list, the head otherwise.  The second
argument is ignored. -/
def car (s : State) (a _b : Option Nat) : Res (Option Nat × State) :=
  if a = some s.errorIdx then .ok (some s.errorIdx, s)
  else if a = some s.nilIdx then .ok (some s.nilIdx, s)
  else
    match a with
    | none => .error .ub
    | some ai => do
      let c ← getCell s ai
      if c.type ≠ .list then .ok (some s.errorIdx, { s with diags := s.diags + 1 })
      else
        match c.car with
        | .ptr p => .ok (p, s)
        | _ => .error .ub

/-- `cdr(a, b)`: error on the error cell, the empty list on the empty
list, a diagnostic + error on a non-list; a `NULL` tail is returned as
the empty list.  The second argument is ignored. -/
def cdr (s : State) (a _b : Option Nat) : Res (Option Nat × State) :=
  if a = some s.errorIdx then .ok (some s.errorIdx, s)
  else if a = some s.nilIdx then .ok (some s.nilIdx, s)
  else
    match a with
    | none => .error .ub
    | some ai => do
      let c ← getCell s ai
      if c.type ≠ .list then .ok (some s.errorIdx, { s with diags := s.diags + 1 })
      else
        match c.cdr with
        | .ptr none => .ok (some s.nilIdx, s)
        | .ptr (some p) => .ok (some p, s)
        | _ => .error .ub

/-- The search loop of `set`: find the binding pair whose car is the atom
`a` and overwrite its cdr with `b`; `none` when not found. -/
def setGo : Nat → State → Option Nat → Nat → Option Nat → Res (Option State)
  | 0, _, _, _, _ => .error .timeout
  | fuel + 1, s, cur, a, b =>
    match cur with
    | none => .ok none
    | some ci =>
      if ci = s.nilIdx then .ok none
      else do
        let pairP ← carPtr s ci
        match pairP with
        | none => .error .ub
        | some pi => do
          let pa ← carPtr s pi
          if pa = some a then .ok (some (setCdr s pi (.ptr b)))
          else do
            let nxt ← cdrPtr s ci
            setGo fuel s nxt a b

/-- `set(a, b)`: bind the atom `a` to `b`, updating an existing binding
pair in place or prepending a fresh one to the binding list. -/
def set (fuel : Nat) (s : State) (a b : Option Nat) : Res (Option Nat × State) := do
  if a = some s.errorIdx ∨ b = some s.errorIdx then .ok (some s.errorIdx, s)
  else
    match a with
    | none => .error .ub
    | some ai => do
      let ac ← getCell s ai
      if ac.type ≠ .atom then .ok (some s.errorIdx, { s with diags := s.diags + 1 })
      else do
        match ← setGo fuel s s.bindingList ai b with
        | some s1 => .ok (b, s1)
        | none => do
          let s := protectPush s a
          let s := protectPush s b
          let (current, s) ← newCell s .list
          let s := unprotectS (unprotectS s)
          let s := setCar s current (.ptr a)
          let s := setCdr s current (.ptr b)
          let s := protectPush s (some current)
          let (lst, s) ← newCell s .list
          let s := unprotectS s
          let s := setCar s lst (.ptr (some current))
          let s := setCdr s lst (.ptr s.bindingList)
          .ok (b, { s with bindingList := some lst })

/-- `equal(a, b)`: the true cell exactly when `a` is a (non-NULL) atom
cell and `b` is the very same cell; the empty list otherwise. -/
def equal (s : State) (a b : Option Nat) : Res (Option Nat × State) :=
  match a with
  | none => .ok (some s.nilIdx, s)
  | some ai => do
    let c ← getCell s ai
    if c.type = .atom ∧ a = b then .ok (some s.trueIdx, s)
    else .ok (some s.nilIdx, s)

/-! ## Special functions -/

/-- `quote(expr)`: `car(expr, NULL)`. -/
def quote (s : State) (e : Option Nat) : Res (Option Nat × State) :=
  car s e none

/-- The `while(c)` loop of `lambda`: check that every element of the
formal parameter list is an atom (`true` when the whole list checks). -/
def lambdaChk : Nat → State → Option Nat → Res Bool
  | 0, _, _ => .error .timeout
  | fuel + 1, s, c =>
    match c with
    | none => .ok true
    | some ci => do
      let caP ← carPtr s ci
      match caP with
      | none => .error .ub
      | some cai => do
        let cc ← getCell s cai
        if cc.type ≠ .atom then .ok false
        else do
          let nxt ← cdrPtr s ci
          lambdaChk fuel s nxt

/-- `lambda(expr)`: allocate a lambda cell whose car is the formal list
and whose cdr is the body; reject a malformed formal list with a
diagnostic + error. -/
def lambda (fuel : Nat) (s : State) (e : Option Nat) : Res (Option Nat × State) := do
  let s := protectPush s e
  let (uf, s) ← newCell s .lambda
  let s := unprotectS s
  let (p1, s) ← car s e none
  let s := setCar s uf (.ptr p1)
  let (t1, s) ← cdr s e none
  let (p2, s) ← car s t1 none
  let s := setCdr s uf (.ptr p2)
  if p1 = some s.errorIdx ∨ p2 = some s.errorIdx then .ok (some s.errorIdx, s)
  else
    match p1 with
    | none => .error .ub
    | some ci => do
      let cc ← getCell s ci
      if cc.type ≠ .list ∧ ci ≠ s.nilIdx then
        .ok (some s.errorIdx, { s with diags := s.diags + 1 })
      else
        if ci = s.nilIdx then .ok (some uf, s)
        else do
          match ← lambdaChk fuel s p1 with
          | true => .ok (some uf, s)
          | false => .ok (some s.errorIdx, { s with diags := s.diags + 1 })

/-! ## The evaluator -/

/-- The binding search loop of `eval_atom`. -/
def evalAtomGo : Nat → State → Nat → Option Nat → Res (Option Nat × State)
  | 0, _, _, _ => .error .timeout
  | fuel + 1, s, expr, cur =>
    match cur with
    | none => .ok (some s.errorIdx, { s with diags := s.diags + 1 })
    | some ci => do
      let pairP ← carPtr s ci
      match pairP with
      | none => .error .ub
      | some pi => do
        let aP ← carPtr s pi
        if aP = some expr then do
          let v ← cdrPtr s pi
          match v with
          | none => .ok (some s.errorIdx, { s with diags := s.diags + 1 })
          | some vi => .ok (some vi, s)
        else do
          let nxt ← cdrPtr s ci
          evalAtomGo fuel s expr nxt

/-- `eval_atom(expr)`: look up the binding of an atom in the binding
list; an unbound or NULL-bound atom is a diagnostic + error. -/
def evalAtom (fuel : Nat) (s : State) (expr : Nat) : Res (Option Nat × State) :=
  evalAtomGo fuel s expr s.bindingList

/-- The binding-push loop of `eval_lambda`: cons each pair of the
temporary list onto the global binding list. -/
def pushBindings : Nat → State → Option Nat → Res State
  | 0, _, _ => .error .timeout
  | fuel + 1, s, blist =>
    match blist with
    | none => .ok s
    | some bi =>
      if bi = s.nilIdx then .ok s
      else do
        let pairP ← carPtr s bi
        let (nb, s) ← cons s pairP s.bindingList
        let s := { s with bindingList := nb }
        let nxt ← cdrPtr s bi
        pushBindings fuel s nxt

/-- The binding-pop loop of `eval_lambda`: `count` times,
`binding_list = cell_cdr(binding_list)`. -/
def popBindings : Nat → State → Res State
  | 0, s => .ok s
  | k + 1, s =>
    match s.bindingList with
    | none => .error .ub
    | some bi => do
      let nxt ← cdrPtr s bi
      popBindings k { s with bindingList := nxt }

mutual

/-- `eval_lisp(expr)`: the dispatching evaluation routine.  Primitive
application (`cell_func(func)(...)`) is dispatched inline on the `Prim`
stored in the function cell.  A two-argument primitive invoked through a
special-function cell would read an unset second parameter in C, which is
modelled as `Err.ub`. -/
def evalLisp : Nat → State → Option Nat → Res (Option Nat × State)
  | 0, _, _ => .error .timeout
  | fuel + 1, s, e =>
    if e = some s.errorIdx then .ok (some s.errorIdx, s)
    else
      match e with
      | none => .error .ub
      | some ei =>
        match s.heap.get? ei with
        | none => .error .ub
        | some c =>
          match c.type with
          | .atom => evalAtom fuel s ei
          | .list => do
            let s := protectPush s e
            let hd ← (match c.car with | .ptr p => Except.ok p | _ => Except.error Err.ub)
            let (f, s) ← evalLisp fuel s hd
            if f = some s.errorIdx then .ok (some s.errorIdx, unprotectS s)
            else
              match f with
              | none => .error .ub
              | some fi => do
                let fc ← getCell s fi
                match fc.type with
                | .vfunc => do
                  let ec ← getCell s ei
                  let cd ← (match ec.cdr with | .ptr p => Except.ok p | _ => Except.error Err.ub)
                  let (a1, s) ← car s cd none
                  let (a, s) ← evalLisp fuel s a1
                  let s := protectPush s a
                  let ec2 ← getCell s ei
                  let cd2 ← (match ec2.cdr with | .ptr p => Except.ok p | _ => Except.error Err.ub)
                  let (t1, s) ← cdr s cd2 none
                  let (b1, s) ← car s t1 none
                  let (b, s) ← evalLisp fuel s b1
                  let s := unprotectS (unprotectS s)
                  let pr ← funcOf s fi
                  match pr with
                  | .pcar => car s a b
                  | .pcdr => cdr s a b
                  | .pcons => cons s a b
                  | .pset => set fuel s a b
                  | .pequal => equal s a b
                  | .pquote => quote s a
                  | .plambda => lambda fuel s a
                  | .pif => lispIf fuel s a
                | .sfunc => do
                  let s := unprotectS s
                  let ec ← getCell s ei
                  let cd ← (match ec.cdr with | .ptr p => Except.ok p | _ => Except.error Err.ub)
                  let pr ← funcOf s fi
                  match pr with
                  | .pquote => quote s cd
                  | .plambda => lambda fuel s cd
                  | .pif => lispIf fuel s cd
                  | .pcar => car s cd none
                  | .pcdr => cdr s cd none
                  | .pequal => equal s cd none
                  | .pcons => .error .ub
                  | .pset => .error .ub
                | .lambda =>
                  let s := unprotectS s
                  evalLambda fuel s ei fi
                | _ => .ok (e, s)
          | _ => .ok (e, s)

/-- `eval_lambda(expr, func)`: evaluate the actuals into a temporary
binding list, push the bindings onto the global binding list, evaluate
the body unless an actual produced the error cell, then pop exactly
`|count|` bindings. -/
def evalLambda : Nat → State → Nat → Nat → Res (Option Nat × State)
  | 0, _, _, _ => .error .timeout
  | fuel + 1, s, eIdx, fIdx => do
    let fc ← getCell s fIdx
    let argn ← (match fc.car with | .ptr p => Except.ok p | _ => Except.error Err.ub)
    let ec ← getCell s eIdx
    let argv ← (match ec.cdr with | .ptr p => Except.ok p | _ => Except.error Err.ub)
    let s := protectPush s (some eIdx)
    let s := protectPush s (some fIdx)
    let (s, blist, count, cell) ← evalLambdaLoop fuel s argn argv (some s.nilIdx) none 0
    let s := protectPush s blist
    let s ← pushBindings fuel s blist
    let (cell2, s) ←
      if 0 ≤ count ∧ cell ≠ some s.errorIdx then do
        let fc2 ← getCell s fIdx
        let bodyP ← (match fc2.cdr with | .ptr p => Except.ok p | _ => Except.error Err.ub)
        evalLisp fuel s bodyP
      else Except.ok (cell, s)
    let s ← popBindings count.natAbs s
    let s := unprotectS (unprotectS (unprotectS s))
    .ok (cell2, s)

/-- The argument-evaluation loop of `eval_lambda`: for each formal, bind
it to the evaluated actual (or to the empty list when the actuals are
exhausted), consing the pair onto the temporary list `blist`; when an
actual evaluates to the error cell, negate the count and break. -/
def evalLambdaLoop : Nat → State → Option Nat → Option Nat → Option Nat → Option Nat → Int → Res (State × Option Nat × Int × Option Nat)
  | 0, _, _, _, _, _, _ => .error .timeout
  | fuel + 1, s, argn, argv, blist, cell, count =>
    match argn with
    | none => .ok (s, blist, count, cell)
    | some an =>
      if an = s.nilIdx then .ok (s, blist, count, cell)
      else
        match argv with
        | none => do
          let s := protectPush s blist
          let cl := some s.nilIdx
          let s := protectPush s cl
          let (bind, s) ← newCell s .list
          let s := unprotectS (unprotectS s)
          let faP ← carPtr s an
          let s := setCar s bind (.ptr faP)
          let s := setCdr s bind (.ptr cl)
          let (bl2, s) ← cons s (some bind) blist
          let nxt ← cdrPtr s an
          evalLambdaLoop fuel s nxt argv bl2 cl (count + 1)
        | some av => do
          let s := protectPush s blist
          let (a1, s) ← car s argv none
          let (cl, s) ← evalLisp fuel s a1
          if cl = some s.errorIdx then
            .ok (unprotectS s, blist, -count, some s.errorIdx)
          else do
            let s := protectPush s cl
            let (bind, s) ← newCell s .list
            let s := unprotectS (unprotectS s)
            let faP ← carPtr s an
            let s := setCar s bind (.ptr faP)
            let s := setCdr s bind (.ptr cl)
            let (bl2, s) ← cons s (some bind) blist
            let nxt ← cdrPtr s an
            let argv2 ← cdrPtr s av
            evalLambdaLoop fuel s nxt argv2 bl2 cl (count + 1)

/-- `lisp_if(expr)`: extract condition and the two branches, propagate an
error in the extraction, evaluate the condition (protecting the form),
then evaluate exactly one branch depending on whether the condition's
value is the empty list. -/
def lispIf : Nat → State → Option Nat → Res (Option Nat × State)
  | 0, _, _ => .error .timeout
  | fuel + 1, s, e => do
    let (boolE, s) ← car s e none
    let (t1, s) ← cdr s e none
    let (thenE, s) ← car s t1 none
    let (t2, s) ← cdr s e none
    let (t3, s) ← cdr s t2 none
    let (elseE, s) ← car s t3 none
    if boolE = some s.errorIdx ∨ thenE = some s.errorIdx ∨ elseE = some s.errorIdx then
      .ok (some s.errorIdx, s)
    else do
      let s := protectPush s e
      let (br, s) ← evalLisp fuel s boolE
      let s := unprotectS s
      if br ≠ some s.nilIdx then evalLisp fuel s thenE
      else evalLisp fuel s elseE

end

/-! ## Chain predicates for the binding machinery

Executable descriptions of the pointer structures `eval_lambda`
manipulates: the formal-parameter list of a lambda, a prefix of the free
list, and the temporary binding list of (formal . value) pairs built by
the argument loop.  The first two are `Bool`-valued so that a concrete
state can discharge them by evaluation. -/

/-- The formal-parameter chain of a lambda: `argn` runs through the spine
cells listed in `L` (each paired with the formal stored in its car) and
ends at `NULL` or the empty list, exactly the guard of the binding loop. -/
def argnChainB (s : State) : Option Nat → List (Nat × Option Nat) → Bool
  | p, [] => decide (p = none) || decide (p = some s.nilIdx)
  | p, (i, fa) :: rest =>
    decide (p = some i) && !decide (i = s.nilIdx) &&
    (match heapAt s i with
     | some c =>
       decide (c.car = Slot.ptr fa) &&
       (match c.cdr with
        | Slot.ptr q => argnChainB s q rest
        | _ => false)
     | none => false)

/-- `L` is an initial segment of the free-list chain starting at `p`:
each listed cell's car points at the next listed cell. -/
def freePreB (s : State) : Option Nat → List Nat → Bool
  | _, [] => true
  | p, i :: rest =>
    decide (p = some i) &&
    (match heapAt s i with
     | some c =>
       (match c.car with
        | Slot.ptr q => freePreB s q rest
        | _ => false)
     | none => false)

/-- A binding-list head acceptable as the `b` argument of `cons`: the
empty list, or a valid list cell distinct from the error cell and from
the free cells about to be consumed. -/
def blistOkB (s : State) (FR : List Nat) : Option Nat → Bool
  | none => false
  | some bi =>
    decide (bi = s.nilIdx) ||
    (match heapAt s bi with
     | some c =>
       decide (c.type = CellType.list) && !decide (bi = s.errorIdx) &&
       !decide (bi ∈ FR)
     | none => false)

/-- The temporary binding list built by the argument loop: a chain of
list spine cells (newest first), each carrying one (formal . value) pair
in its car, terminating at `stop`. -/
def SpineChain (s : State) (stop : Option Nat) : Option Nat → List (Nat × Nat) → Prop
  | p, [] => p = stop
  | p, (sp, pr) :: rest =>
    p = some sp ∧ ∃ c, heapAt s sp = some c ∧
      c.car = Slot.ptr (some pr) ∧ c.type = CellType.list ∧
      ∃ q, c.cdr = Slot.ptr q ∧ SpineChain s stop q rest

/-- The global binding list seen as a bare cdr-linked spine: `p` runs
through the cells of `L` by cdr and ends at `stop`.  This is the exact
structure the pop loop of `eval_lambda` walks. -/
def BChain (s : State) (stop : Option Nat) : Option Nat → List Nat → Prop
  | p, [] => p = stop
  | p, n :: ns =>
    p = some n ∧ ∃ c, heapAt s n = some c ∧
      ∃ q, c.cdr = Slot.ptr q ∧ BChain s stop q ns

/-! ## Basic lemmas -/

@[simp] theorem ok_bind {α β : Type} (a : α) (f : α → Res β) :
    (Except.ok a : Res α) >>= f = f a := rfl

@[simp] theorem err_bind {α β : Type} (e : Err) (f : α → Res β) :
    (Except.error e : Res α) >>= f = Except.error e := rfl

@[simp] theorem pure_eq_ok {α : Type} (a : α) : (pure a : Res α) = Except.ok a := rfl

/-! ## Claim C9: car and cdr edge-case policy -/

/-- C9: `car` and `cdr` on the empty list return the empty list; on the
ERROR sentinel they return the ERROR sentinel; on any valid non-list,
non-empty-list, non-ERROR cell they emit one diagnostic and return the
ERROR sentinel. -/
theorem C9_car_cdr_edge_policy (s : State) (b : Option Nat) :
    (car s (some s.nilIdx) b = Except.ok (some s.nilIdx, s) ∧
     cdr s (some s.nilIdx) b = Except.ok (some s.nilIdx, s)) ∧
    (car s (some s.errorIdx) b = Except.ok (some s.errorIdx, s) ∧
     cdr s (some s.errorIdx) b = Except.ok (some s.errorIdx, s)) ∧
    (∀ ai c, heapAt s ai = some c → c.type ≠ CellType.list →
        ai ≠ s.nilIdx → ai ≠ s.errorIdx →
        car s (some ai) b = Except.ok (some s.errorIdx, { s with diags := s.diags + 1 }) ∧
        cdr s (some ai) b = Except.ok (some s.errorIdx, { s with diags := s.diags + 1 })) := by
  refine ⟨⟨?_, ?_⟩, ⟨?_, ?_⟩, ?_⟩
  · by_cases h : s.nilIdx = s.errorIdx <;> simp [car, h]
  · by_cases h : s.nilIdx = s.errorIdx <;> simp [cdr, h]
  · simp [car]
  · simp [cdr]
  · intro ai c hc ht hn he
    simp only [heapAt, List.get?_eq_getElem?] at hc
    constructor
    · simp [car, getCell, hc, ht, hn, he]
    · simp [cdr, getCell, hc, ht, hn, he]

/-- Concrete state for the C9 witness: three atoms (nil, error, t). -/
def wsC9 : State :=
  { heap := [⟨.name "nil", .ptr none, .atom, false⟩,
             ⟨.name "<error>", .ptr none, .atom, false⟩,
             ⟨.name "t", .ptr none, .atom, false⟩],
    freeList := none, bindingList := none, protect := [],
    nilIdx := 0, errorIdx := 1, trueIdx := 2, quoteIdx := 0, diags := 0 }

/-- Witness for C9 at a concrete state: `car`/`cdr` of the atom `t`
(cell 2) emit a diagnostic and return the error cell. -/
theorem C9_witness :
    car wsC9 (some 2) none = Except.ok (some 1, { wsC9 with diags := 1 }) ∧
    cdr wsC9 (some 2) none = Except.ok (some 1, { wsC9 with diags := 1 }) :=
  (C9_car_cdr_edge_policy wsC9 none).2.2 2 ⟨.name "t", .ptr none, .atom, false⟩
    (by decide) (by decide) (by decide) (by decide)

/-! ## Claim C8: cons / car / cdr -/

/-- C8: in a state with a valid free cell (so the allocation inside
`cons` pops the free list), for every non-ERROR `A` and list-or-nil `B`,
`car (cons A B)` returns `A` and `cdr (cons A B)` returns `B`; and for
every valid second argument that is neither a list nor the empty list,
`cons` returns the ERROR sentinel. -/
theorem C8_cons_car_cdr (s : State) (a b : Option Nat) (f : Nat) (fc : Cell) (fn : Option Nat)
    (hf : s.freeList = some f)
    (hflen : f < s.heap.length)
    (hfnil : f ≠ s.nilIdx)
    (hferr : f ≠ s.errorIdx)
    (hfc : heapAt s f = some fc)
    (hfcar : fc.car = .ptr fn)
    (ha : a ≠ some s.errorIdx)
    (hberr : b ≠ some s.errorIdx)
    (hnil : (heapAt s s.nilIdx).isSome = true)
    (hb : b = some s.nilIdx ∨
      ∃ bi bc, b = some bi ∧ heapAt s bi = some bc ∧ bc.type = CellType.list) :
    (∃ s1, cons s a b = Except.ok (some f, s1) ∧
       car s1 (some f) none = Except.ok (a, s1) ∧
       cdr s1 (some f) none = Except.ok (b, s1)) ∧
    (∀ a2 b2 bi2 bc2, b2 = some bi2 → heapAt s bi2 = some bc2 →
       bc2.type ≠ CellType.list → bi2 ≠ s.nilIdx →
       ∃ s2, cons s a2 b2 = Except.ok (some s.errorIdx, s2)) := by
  constructor
  · simp only [heapAt, List.get?_eq_getElem?] at hfc
    rcases hb with hbn | ⟨bi, bc, hbeq, hbc, hbt⟩
    · subst hbn
      have hne : s.nilIdx ≠ s.errorIdx := fun h => hberr (by rw [h])
      obtain ⟨nc, hnc⟩ := Option.isSome_iff_exists.mp hnil
      simp only [heapAt, List.get?_eq_getElem?] at hnc
      refine ⟨{ s with heap := s.heap.set f ⟨.ptr a, .ptr none, .list, false⟩,
                       freeList := fn }, ?_, ?_, ?_⟩
      · simp [cons, newCell, protectPush, unprotectS, setCell, setCar, setCdr,
              getCell, carPtr, hf, hnc, hfc, hfcar, ha, hne,
              List.get?_eq_getElem?, List.getElem?_set_eq_of_lt, hflen, List.set_set]
      · simp [car, getCell, hfnil, hferr, List.get?_eq_getElem?,
              List.getElem?_set_eq_of_lt, hflen]
      · simp [cdr, getCell, hfnil, hferr, List.get?_eq_getElem?,
              List.getElem?_set_eq_of_lt, hflen]
    · subst hbeq
      have hbe : bi ≠ s.errorIdx := fun h => hberr (by rw [h])
      simp only [heapAt, List.get?_eq_getElem?] at hbc
      by_cases hbnil : bi = s.nilIdx
      · subst hbnil
        refine ⟨{ s with heap := s.heap.set f ⟨.ptr a, .ptr none, .list, false⟩,
                         freeList := fn }, ?_, ?_, ?_⟩
        · simp [cons, newCell, protectPush, unprotectS, setCell, setCar, setCdr,
                getCell, carPtr, hf, hbc, hfc, hfcar, ha, hbe,
                List.get?_eq_getElem?, List.getElem?_set_eq_of_lt, hflen, List.set_set]
        · simp [car, getCell, hfnil, hferr, List.get?_eq_getElem?,
                List.getElem?_set_eq_of_lt, hflen]
        · simp [cdr, getCell, hfnil, hferr, List.get?_eq_getElem?,
                List.getElem?_set_eq_of_lt, hflen]
      · refine ⟨{ s with heap := s.heap.set f ⟨.ptr a, .ptr (some bi), .list, false⟩,
                         freeList := fn }, ?_, ?_, ?_⟩
        · simp [cons, newCell, protectPush, unprotectS, setCell, setCar, setCdr,
                getCell, carPtr, hf, hbc, hbt, hfc, hfcar, ha, hbe, hbnil,
                List.get?_eq_getElem?, List.getElem?_set_eq_of_lt, hflen, List.set_set]
        · simp [car, getCell, hfnil, hferr, List.get?_eq_getElem?,
                List.getElem?_set_eq_of_lt, hflen]
        · simp [cdr, getCell, hfnil, hferr, List.get?_eq_getElem?,
                List.getElem?_set_eq_of_lt, hflen]
  · intro a2 b2 bi2 bc2 hbeq hbc hbt hbn
    subst hbeq
    simp only [heapAt, List.get?_eq_getElem?] at hbc
    by_cases h1 : a2 = some s.errorIdx ∨ some bi2 = some s.errorIdx
    · rcases h1 with h | h
      · exact ⟨s, by simp [cons, h]⟩
      · have h2 : bi2 = s.errorIdx := by injection h
        exact ⟨s, by simp [cons, h2]⟩
    · push_neg at h1
      have hb2 : bi2 ≠ s.errorIdx := by simpa using h1.2
      refine ⟨{ s with diags := s.diags + 1 }, ?_⟩
      simp [cons, h1.1, hb2, getCell, hbc, hbt, hbn]

/-- Concrete state for the C8 witness. -/
def wsC8 : State :=
  { heap := [⟨.name "nil", .ptr none, .atom, false⟩,
             ⟨.name "<error>", .ptr none, .atom, false⟩,
             ⟨.name "t", .ptr none, .atom, false⟩,
             ⟨.ptr none, .ptr none, .list, false⟩],
    freeList := some 3, bindingList := none, protect := [],
    nilIdx := 0, errorIdx := 1, trueIdx := 2, quoteIdx := 0, diags := 0 }

/-- Witness for C8: consing the atom `t` onto the empty list in a
concrete state, then taking `car` and `cdr` of the result. -/
theorem C8_witness :
    (∃ s1, cons wsC8 (some 2) (some 0) = Except.ok (some 3, s1) ∧
       car s1 (some 3) none = Except.ok (some 2, s1) ∧
       cdr s1 (some 3) none = Except.ok (some 0, s1)) ∧
    (∀ a2 b2 bi2 bc2, b2 = some bi2 → heapAt wsC8 bi2 = some bc2 →
       bc2.type ≠ CellType.list → bi2 ≠ wsC8.nilIdx →
       ∃ s2, cons wsC8 a2 b2 = Except.ok (some wsC8.errorIdx, s2)) :=
  C8_cons_car_cdr wsC8 (some 2) (some 0) 3 ⟨.ptr none, .ptr none, .list, false⟩ none
    (by decide) (by decide) (by decide) (by decide) (by decide) (by decide)
    (by decide) (by decide) (by decide) (Or.inl (by decide))

/-! ## Claim C7: atom interning and `equal` -/

/-- When the head of the binding list already holds an atom with the
requested name, `new_atom` returns that very cell and leaves the state
unchanged. -/
theorem newAtom_found (s : State) (sp pr ai : Nat) (nm : String) (fuel : Nat)
    (h1 : s.bindingList = some sp) (h2 : sp ≠ s.nilIdx)
    (h3 : carPtr s sp = Except.ok (some pr))
    (h4 : carPtr s pr = Except.ok (some ai))
    (h5 : nameOf s ai = Except.ok nm) :
    newAtom (fuel + 1) s nm = Except.ok (ai, s) := by
  simp [newAtom, lookupAtom, h1, h2, h3, h4, h5]

/-- C7: interning a fresh name (not found by the binding-list scan, with
three distinct valid cells on the free list so that the three allocations
inside `new_atom` pop the free list) returns an atom cell `f2`;
interning the same name again returns the identical cell `f2` and leaves
the state unchanged; `equal` on that atom and itself is the true cell;
and `equal` on any other pair — including two distinct structurally equal
lists — is the empty list. -/
theorem C7_intern_twice_equal (s : State) (nm : String) (fuel : Nat)
    (f1 f2 f3 : Nat) (c1 c2 c3 : Cell) (q3 : Option Nat) (a : Nat) (s' : State)
    (hlook : lookupAtom fuel s s.bindingList nm = Except.ok none)
    (hfree : s.freeList = some f1)
    (hv1 : f1 < s.heap.length) (hv2 : f2 < s.heap.length) (hv3 : f3 < s.heap.length)
    (hd12 : f1 ≠ f2) (hd13 : f1 ≠ f3) (hd23 : f2 ≠ f3)
    (hc1 : heapAt s f1 = some c1) (hcar1 : c1.car = Slot.ptr (some f2))
    (hc2 : heapAt s f2 = some c2) (hcar2 : c2.car = Slot.ptr (some f3))
    (hc3 : heapAt s f3 = some c3) (hcar3 : c3.car = Slot.ptr q3)
    (hn3 : f3 ≠ s.nilIdx)
    (hrun : newAtom fuel s nm = Except.ok (a, s')) :
    (a = f2 ∧
     (∀ fuel2, newAtom (fuel2 + 1) s' nm = Except.ok (f2, s')) ∧
     equal s' (some f2) (some f2) = Except.ok (some s.trueIdx, s')) ∧
    (∀ (t : State) (x y : Option Nat),
       equal t none y = Except.ok (some t.nilIdx, t) ∧
       (∀ xi xc, x = some xi → heapAt t xi = some xc →
          (xc.type ≠ CellType.atom ∨ x ≠ y) →
          equal t x y = Except.ok (some t.nilIdx, t))) := by
  constructor
  · simp only [heapAt, List.get?_eq_getElem?] at hc1 hc2 hc3
    have hd21 := hd12.symm
    have hd31 := hd13.symm
    have hd32 := hd23.symm
    have hc1' : s.heap[f1] = c1 := by
      have h := hc1
      rwa [List.getElem?_eq_getElem hv1, Option.some_inj] at h
    have hc2' : s.heap[f2] = c2 := by
      have h := hc2
      rwa [List.getElem?_eq_getElem hv2, Option.some_inj] at h
    have hc3' : s.heap[f3] = c3 := by
      have h := hc3
      rwa [List.getElem?_eq_getElem hv3, Option.some_inj] at h
    simp [newAtom, hlook, newCell, protectPush, unprotectS, setCell,
      setCar, setCdr, getCell, carPtr, heapAt, List.get?_eq_getElem?, hfree,
      hc1, hcar1, hc2, hcar2, hc3, hcar3, hc1', hc2', hc3',
      hd12, hd13, hd23, hd21, hd31, hd32,
      List.getElem?_set_ne, List.getElem?_set_eq_of_lt, hv1, hv2, hv3,
      List.length_set, List.set_set] at hrun
    obtain ⟨ha2, hs2⟩ := hrun
    subst ha2
    subst hs2
    refine ⟨rfl, ?_, ?_⟩
    · intro fuel2
      refine newAtom_found _ f3 f1 f2 nm fuel2 rfl (by simpa using hn3) ?_ ?_ ?_
      · simp [carPtr, getCell, List.get?_eq_getElem?, List.getElem?_set_ne,
          List.getElem?_set_eq_of_lt, hv3, List.length_set, hd13, hd23, hd31, hd32]
      · simp [carPtr, getCell, List.get?_eq_getElem?, List.getElem?_set_ne,
          List.getElem?_set_eq_of_lt, hv1, List.length_set, hd12, hd13, hd21, hd31]
      · simp [nameOf, getCell, List.get?_eq_getElem?, List.getElem?_set_ne,
          List.getElem?_set_eq_of_lt, hv2, List.length_set, hd12, hd21, hd23, hd32]
    · simp [equal, getCell, List.get?_eq_getElem?, List.getElem?_set_ne,
        List.getElem?_set_eq_of_lt, hv2, List.length_set, hd12, hd21, hd23, hd32]
  · intro t x y
    constructor
    · simp [equal]
    · intro xi xc hx hxc hne
      subst hx
      simp only [heapAt, List.get?_eq_getElem?] at hxc
      rcases hne with h | h
      · simp [equal, getCell, hxc, h]
      · simp [equal, getCell, hxc, h]

/-- Concrete state for the C7 witness: binding list `{nil}` and three
free cells. -/
def wsC7 : State :=
  { heap := [⟨.name "nil", .ptr none, .atom, false⟩,
             ⟨.ptr (some 0), .ptr (some 0), .list, false⟩,
             ⟨.ptr (some 1), .ptr none, .list, false⟩,
             ⟨.ptr (some 4), .ptr none, .list, false⟩,
             ⟨.ptr (some 5), .ptr none, .list, false⟩,
             ⟨.ptr none, .ptr none, .list, false⟩],
    freeList := some 3, bindingList := some 2, protect := [],
    nilIdx := 0, errorIdx := 0, trueIdx := 0, quoteIdx := 0, diags := 0 }

/-- The state after interning the fresh name `x` in `wsC7`. -/
def wsC7out : State :=
  { heap := [⟨.name "nil", .ptr none, .atom, false⟩,
             ⟨.ptr (some 0), .ptr (some 0), .list, false⟩,
             ⟨.ptr (some 1), .ptr none, .list, false⟩,
             ⟨.ptr (some 4), .ptr none, .list, false⟩,
             ⟨.name "x", .ptr none, .atom, false⟩,
             ⟨.ptr (some 3), .ptr (some 2), .list, false⟩],
    freeList := none, bindingList := some 5, protect := [],
    nilIdx := 0, errorIdx := 0, trueIdx := 0, quoteIdx := 0, diags := 0 }

/-- Witness for C7 at a concrete state: interning `x` yields cell 4,
interning again yields the same cell 4 with the state unchanged. -/
theorem C7_witness :
    (4 = 4 ∧
     (∀ fuel2, newAtom (fuel2 + 1) wsC7out "x" = Except.ok (4, wsC7out)) ∧
     equal wsC7out (some 4) (some 4) = Except.ok (some wsC7.trueIdx, wsC7out)) ∧
    (∀ (t : State) (x y : Option Nat),
       equal t none y = Except.ok (some t.nilIdx, t) ∧
       (∀ xi xc, x = some xi → heapAt t xi = some xc →
          (xc.type ≠ CellType.atom ∨ x ≠ y) →
          equal t x y = Except.ok (some t.nilIdx, t))) :=
  C7_intern_twice_equal wsC7 "x" 9 3 4 5
    ⟨.ptr (some 4), .ptr none, .list, false⟩
    ⟨.ptr (some 5), .ptr none, .list, false⟩
    ⟨.ptr none, .ptr none, .list, false⟩ none 4 wsC7out
    (by decide) (by decide) (by decide) (by decide) (by decide)
    (by decide) (by decide) (by decide) (by decide) (by decide)
    (by decide) (by decide) (by decide) (by decide) (by decide)
    (by decide)

/-! ## Claim C2: applying a non-callable value -/

/-- Concrete state for C2: binding list `{nil, t, <error>}` with `t`
bound to itself, and the expression `(t t)` in cells 9–10. -/
def wsC2 : State :=
  { heap := [⟨.name "nil", .ptr none, .atom, false⟩,
             ⟨.ptr (some 0), .ptr (some 0), .list, false⟩,
             ⟨.ptr (some 1), .ptr none, .list, false⟩,
             ⟨.name "t", .ptr none, .atom, false⟩,
             ⟨.ptr (some 3), .ptr (some 3), .list, false⟩,
             ⟨.ptr (some 4), .ptr (some 2), .list, false⟩,
             ⟨.name "<error>", .ptr none, .atom, false⟩,
             ⟨.ptr (some 6), .ptr (some 6), .list, false⟩,
             ⟨.ptr (some 7), .ptr (some 5), .list, false⟩,
             ⟨.ptr (some 3), .ptr (some 10), .list, false⟩,
             ⟨.ptr (some 3), .ptr none, .list, false⟩],
    freeList := none, bindingList := some 8, protect := [],
    nilIdx := 0, errorIdx := 6, trueIdx := 3, quoteIdx := 0, diags := 0 }

/-- Counterexample to C2 as stated: the list expression `(t t)` (cell 9)
has a head that evaluates without error to the atom `t` (cell 3), which
is not a value-function, special-function or lambda; yet evaluation
returns the expression itself — not the ERROR sentinel (cell 6) — with no
diagnostic, and the expression is left on the protection stack. -/
theorem C2_counterexample :
    heapAt wsC2 9 = some ⟨.ptr (some 3), .ptr (some 10), .list, false⟩ ∧
    evalLisp 4 (protectPush wsC2 (some 9)) (some 3) =
      Except.ok (some 3, protectPush wsC2 (some 9)) ∧
    heapAt wsC2 3 = some ⟨.name "t", .ptr none, .atom, false⟩ ∧
    evalLisp 5 wsC2 (some 9) =
      Except.ok (some 9, { wsC2 with protect := [some 9] }) ∧
    some 9 ≠ some wsC2.errorIdx ∧ wsC2.diags = 0 := by
  decide

/-- C2 amended: when the head of a list expression evaluates (without
error) to a value that is neither a value-function nor a special-function
nor a lambda, `eval_lisp` returns the original list expression itself,
unevaluated — not the ERROR sentinel — and the state is exactly the state
after head evaluation, on which the expression is still protected (the
fall-through path never executes `unprotect`). -/
theorem C2_amended (fuel : Nat) (s s1 : State) (ei fi : Nat) (c fc : Cell)
    (hd f : Option Nat)
    (hee : ei ≠ s.errorIdx)
    (he : heapAt s ei = some c) (hct : c.type = CellType.list)
    (hcar : c.car = Slot.ptr hd)
    (hhead : evalLisp fuel (protectPush s (some ei)) hd = Except.ok (f, s1))
    (hferr : f ≠ some s1.errorIdx)
    (hf : f = some fi) (hfc : heapAt s1 fi = some fc)
    (ht1 : fc.type ≠ CellType.vfunc) (ht2 : fc.type ≠ CellType.sfunc)
    (ht3 : fc.type ≠ CellType.lambda) :
    evalLisp (fuel + 1) s (some ei) = Except.ok (some ei, s1) := by
  subst hf
  simp only [heapAt, List.get?_eq_getElem?] at he hfc
  cases htype : fc.type with
  | vfunc => exact absurd htype ht1
  | sfunc => exact absurd htype ht2
  | lambda => exact absurd htype ht3
  | atom =>
    simp [evalLisp, hee, he, hct, hcar, hhead, hferr, getCell, hfc, htype]
  | list =>
    simp [evalLisp, hee, he, hct, hcar, hhead, hferr, getCell, hfc, htype]

/-- Witness for the amended C2 at the concrete state `wsC2`. -/
theorem C2_witness :
    evalLisp 5 wsC2 (some 9) =
      Except.ok (some 9, { wsC2 with protect := [some 9] }) :=
  C2_amended 4 wsC2 { wsC2 with protect := [some 9] } 9 3
    ⟨.ptr (some 3), .ptr (some 10), .list, false⟩
    ⟨.name "t", .ptr none, .atom, false⟩
    (some 3) (some 3)
    (by decide) (by decide) (by decide) (by decide) (by decide)
    (by decide) (by decide) (by decide) (by decide) (by decide)
    (by decide)

/-! ## Claim C3: `if` and an erroring condition -/

/-- Concrete state for C3: binding list `{nil, t, <error>}`, an unbound
atom `z` (cell 9), and the argument list `(z t t)` of an `if` form in
cells 10–12. -/
def wsC3 : State :=
  { heap := [⟨.name "nil", .ptr none, .atom, false⟩,
             ⟨.ptr (some 0), .ptr (some 0), .list, false⟩,
             ⟨.ptr (some 1), .ptr none, .list, false⟩,
             ⟨.name "t", .ptr none, .atom, false⟩,
             ⟨.ptr (some 3), .ptr (some 3), .list, false⟩,
             ⟨.ptr (some 4), .ptr (some 2), .list, false⟩,
             ⟨.name "<error>", .ptr none, .atom, false⟩,
             ⟨.ptr (some 6), .ptr (some 6), .list, false⟩,
             ⟨.ptr (some 7), .ptr (some 5), .list, false⟩,
             ⟨.name "z", .ptr none, .atom, false⟩,
             ⟨.ptr (some 9), .ptr (some 11), .list, false⟩,
             ⟨.ptr (some 3), .ptr (some 12), .list, false⟩,
             ⟨.ptr (some 3), .ptr none, .list, false⟩],
    freeList := none, bindingList := some 8, protect := [],
    nilIdx := 0, errorIdx := 6, trueIdx := 3, quoteIdx := 0, diags := 0 }

/-- C3 failing run: the condition `z` of `(if z t t)` is unbound, so
evaluating it yields the ERROR sentinel (cell 6) with a diagnostic; yet
`lisp_if` — because the ERROR cell differs from the empty list and is
therefore treated as a truthy condition value — evaluates the *then*
branch and returns its value (the atom `t`, cell 3), not the ERROR
sentinel.  This contradicts the source's own NOTES contract that a
routine receiving the error cell must return the error cell. -/
theorem C3_error_condition_takes_then_branch :
    evalLisp 11 wsC3 (some 9) = Except.ok (some 6, { wsC3 with diags := 1 }) ∧
    (6 : Nat) = wsC3.errorIdx ∧
    lispIf 12 wsC3 (some 10) = Except.ok (some 3, { wsC3 with diags := 1 }) ∧
    some 3 ≠ some wsC3.errorIdx := by
  decide

/-! ## Claim C5: protection discipline inside `new_atom` -/

/-- Concrete state for C5: binding list `{nil}` (cells 0–2), exactly one
free cell (3) and one unreachable allocated cell (4), so that the second
allocation inside `new_atom` triggers a collection. -/
def wsC5 : State :=
  { heap := [⟨.ptr (some 1), .ptr none, .list, false⟩,
             ⟨.ptr (some 2), .ptr (some 2), .list, false⟩,
             ⟨.name "nil", .ptr none, .atom, false⟩,
             ⟨.ptr none, .ptr none, .list, false⟩,
             ⟨.ptr none, .ptr none, .list, false⟩],
    freeList := some 3, bindingList := some 0, protect := [],
    nilIdx := 2, errorIdx := 2, trueIdx := 2, quoteIdx := 2, diags := 0 }

/-- The state of `wsC5` right after the first allocation inside
`new_atom` (the pair cell `current` = cell 3): the free list is empty and
the protection stack is still empty — cell 3 is not protected. -/
def wsC5mid : State :=
  { heap := [⟨.ptr (some 1), .ptr none, .list, false⟩,
             ⟨.ptr (some 2), .ptr (some 2), .list, false⟩,
             ⟨.name "nil", .ptr none, .atom, false⟩,
             ⟨.ptr none, .ptr none, .list, false⟩,
             ⟨.ptr none, .ptr none, .list, false⟩],
    freeList := none, bindingList := some 0, protect := [],
    nilIdx := 2, errorIdx := 2, trueIdx := 2, quoteIdx := 2, diags := 0 }

/-- The final state of `new_atom "x"` on `wsC5`: the spine cell and the
pair cell are the *same* cell 3 (its car points to itself), and the
freshly interned atom cell 4 sits on the free list. -/
def wsC5out : State :=
  { heap := [⟨.ptr (some 1), .ptr none, .list, false⟩,
             ⟨.ptr (some 2), .ptr (some 2), .list, false⟩,
             ⟨.name "nil", .ptr none, .atom, false⟩,
             ⟨.ptr (some 3), .ptr (some 0), .list, false⟩,
             ⟨.name "x", .ptr none, .atom, false⟩],
    freeList := some 4, bindingList := some 3, protect := [],
    nilIdx := 2, errorIdx := 2, trueIdx := 2, quoteIdx := 2, diags := 0 }

/-- C5 failing run: interning the fresh name `x` when the free list
holds one cell.  The first allocation (`current`, cell 3) is not pushed
onto the protection stack before the second allocation; the collection
triggered by that second allocation therefore reclaims cell 3 (it is
linked back onto the free list while `new_atom` still holds it), the
third allocation re-allocates cell 3 as the spine cell, and the run ends
with the spine's car pointing at itself and the freshly interned atom
cell 4 sitting on the free list — a use-after-free, contradicting the
protection discipline the claim states. -/
theorem C5_current_unprotected_reclaimed :
    (newCell wsC5 CellType.list = Except.ok (3, wsC5mid) ∧
     wsC5mid.protect = [] ∧ wsC5mid.freeList = none) ∧
    (∃ sgc, garbageCollect wsC5mid = Except.ok sgc ∧
       sgc.freeList = some 4 ∧
       heapAt sgc 4 = some ⟨.ptr (some 3), .ptr none, .list, false⟩) ∧
    (newAtom 9 wsC5 "x" = Except.ok (4, wsC5out) ∧
     wsC5out.freeList = some 4 ∧
     wsC5out.bindingList = some 3 ∧
     heapAt wsC5out 3 = some ⟨.ptr (some 3), .ptr (some 0), .list, false⟩) := by
  refine ⟨by decide, ⟨{ wsC5mid with
    heap := [⟨.ptr (some 1), .ptr none, .list, false⟩,
             ⟨.ptr (some 2), .ptr (some 2), .list, false⟩,
             ⟨.name "nil", .ptr none, .atom, false⟩,
             ⟨.ptr none, .ptr none, .list, false⟩,
             ⟨.ptr (some 3), .ptr none, .list, false⟩],
    freeList := some 4 }, by decide, by decide, by decide⟩, by decide⟩

/-! ## Claim C6: the allocator -/

/-- Inversion of a successful `new_cell` run: the state it popped from is
either the input state (free list non-empty) or the result of a
successful collection; the returned index is the head of that state's
free list; and the final state resets that cell. -/
theorem newCell_ok_inv (s : State) (ty : CellType) (i : Nat) (s' : State)
    (hrun : newCell s ty = Except.ok (i, s')) :
    ∃ sb fn,
      (if s.freeList = none then garbageCollect s = Except.ok sb else sb = s) ∧
      sb.freeList = some i ∧ carPtr sb i = Except.ok fn ∧
      s' = { setCell sb i ⟨.ptr none, .ptr none, ty, false⟩ with freeList := fn } := by
  cases hf : s.freeList with
  | none =>
    simp [newCell, hf] at hrun
    cases hg : garbageCollect s with
    | error e => simp [hg] at hrun
    | ok sb =>
      simp only [hg, ok_bind] at hrun
      cases hsb : sb.freeList with
      | none => simp [hsb] at hrun
      | some j =>
        simp only [hsb, ok_bind] at hrun
        cases hc : carPtr sb j with
        | error e => simp [hc] at hrun
        | ok fn =>
          simp only [hc, ok_bind, Except.ok.injEq, Prod.mk.injEq] at hrun
          obtain ⟨hij, hs'⟩ := hrun
          subst hij
          refine ⟨sb, fn, by simp [hf, hg], hsb, hc, ?_⟩
          rw [← hs']
  | some f =>
    simp [newCell, hf] at hrun
    cases hc : carPtr s f with
    | error e => simp [hc] at hrun
    | ok fn =>
      simp only [hc, ok_bind, Except.ok.injEq, Prod.mk.injEq] at hrun
      obtain ⟨hij, hs'⟩ := hrun
      subst hij
      refine ⟨s, fn, by simp [hf], hf, hc, ?_⟩
      rw [← hs']

/-- A successful `carPtr` implies the index is a valid heap index. -/
theorem carPtr_ok_lt (s : State) (i : Nat) (fn : Option Nat)
    (h : carPtr s i = Except.ok fn) : i < s.heap.length := by
  by_contra hge
  have hn : s.heap.get? i = none := List.get?_eq_none.mpr (Nat.le_of_not_lt hge)
  rw [List.get?_eq_getElem?] at hn
  simp [carPtr, getCell, hn] at h

/-- C6: when the free list is empty the collector runs before any cell
is popped — if it frees nothing, the whole allocation is the fatal exit
(never an ok result carrying the ERROR sentinel); a successful
allocation returns a cell whose tag is the requested type and whose
payload slots and mark bit are reset, and (when the free list was empty)
that cell is the head of the free list produced by the collection. -/
theorem C6_newCell_collects_or_dies (s : State) (ty : CellType) :
    ((s.freeList = none ∧ garbageCollect s = Except.error Err.fatal) →
       newCell s ty = Except.error Err.fatal) ∧
    (∀ i s', newCell s ty = Except.ok (i, s') →
       heapAt s' i = some ⟨.ptr none, .ptr none, ty, false⟩ ∧
       (s.freeList = none →
         ∃ s1, garbageCollect s = Except.ok s1 ∧ s1.freeList = some i)) := by
  constructor
  · rintro ⟨hf, hg⟩
    simp [newCell, hf, hg]
  · intro i s' hrun
    obtain ⟨sb, fn, hsb, hfl, hc, hs'⟩ := newCell_ok_inv s ty i s' hrun
    have hlt : i < sb.heap.length := carPtr_ok_lt sb i fn hc
    constructor
    · subst hs'
      simp [heapAt, setCell, List.get?_eq_getElem?, List.getElem?_set_eq_of_lt, hlt]
    · intro hnone
      rw [if_pos hnone] at hsb
      exact ⟨sb, hsb, hfl⟩

/-- Concrete state for the C6 witness, exhausted half: a two-cell heap
that is entirely reachable from the binding list, with an empty free
list. -/
def wsC6 : State :=
  { heap := [⟨.ptr (some 1), .ptr none, .list, false⟩,
             ⟨.name "a", .ptr none, .atom, false⟩],
    freeList := none, bindingList := some 0, protect := [],
    nilIdx := 1, errorIdx := 1, trueIdx := 1, quoteIdx := 1, diags := 0 }

/-- The state after a successful `new_cell` on `wsC8`. -/
def wsC6alloc : State :=
  { heap := [⟨.name "nil", .ptr none, .atom, false⟩,
             ⟨.name "<error>", .ptr none, .atom, false⟩,
             ⟨.name "t", .ptr none, .atom, false⟩,
             ⟨.ptr none, .ptr none, .atom, false⟩],
    freeList := none, bindingList := none, protect := [],
    nilIdx := 0, errorIdx := 1, trueIdx := 2, quoteIdx := 0, diags := 0 }

/-- Witness for C6: on the exhausted state the allocation is the fatal
exit; on a state with a free cell the allocation returns that cell with
tag and payload reset. -/
theorem C6_witness :
    newCell wsC6 CellType.atom = Except.error Err.fatal ∧
    (heapAt wsC6alloc 3 = some ⟨.ptr none, .ptr none, .atom, false⟩ ∧
     (wsC8.freeList = none →
       ∃ s1, garbageCollect wsC8 = Except.ok s1 ∧ s1.freeList = some 3)) :=
  ⟨(C6_newCell_collects_or_dies wsC6 CellType.atom).1 ⟨by decide, by decide⟩,
   (C6_newCell_collects_or_dies wsC8 CellType.atom).2 3 wsC6alloc (by decide)⟩

/-! ## Claim C1: the garbage collector

Reachability over the heap graph, a characterisation of the mark phase
(the depth-first `mark` marks exactly the cells reachable from its root
through unmarked cells), and a characterisation of the sweep loop (the
unmarked cells are exactly the cells linked into the rebuilt free list,
with their mark bits cleared). -/

/-- Reachability in the heap graph: `Reach h i j` iff the (valid) cell
`i` reaches cell `j` through `kids` edges. -/
inductive Reach (h : List Cell) : Nat → Nat → Prop where
  | refl (i : Nat) (hv : i < h.length) : Reach h i i
  | head (i j k : Nat) (hv : i < h.length) (hj : j ∈ kids h i) (ht : Reach h j k) : Reach h i k

/-- Reachability through cells that are all unmarked in `h`. -/
inductive UReach (h : List Cell) : Nat → Nat → Prop where
  | refl (i : Nat) (hv : i < h.length) (hm : getMark h i = false) : UReach h i i
  | head (i j k : Nat) (hv : i < h.length) (hm : getMark h i = false)
      (hj : j ∈ kids h i) (ht : UReach h j k) : UReach h i k

/-- `UReach` from an optional root (`none` = NULL reaches nothing). -/
def UReachO (h : List Cell) (p : Option Nat) (i : Nat) : Prop :=
  match p with
  | none => False
  | some r => UReach h r i

/-- `Reach` from an optional root. -/
def ReachO (h : List Cell) (p : Option Nat) (i : Nat) : Prop :=
  match p with
  | none => False
  | some r => Reach h r i

/-- A cell reachable from the collector's root set (the binding list or
some protection-stack entry) in the heap of `s`. -/
def RootReach (s : State) (i : Nat) : Prop :=
  ReachO s.heap s.bindingList i ∨ ∃ p ∈ s.protect, ReachO s.heap p i

/-- The number of unmarked cells. -/
def unmarkedCount (h : List Cell) : Nat :=
  h.countP (fun c => !c.mark)

/-- The free list is exactly the chain `d₁, d₂, …` threaded through the
car slots, ending in NULL. -/
def ChainIs (h : List Cell) : Option Nat → List Nat → Prop
  | p, [] => p = none
  | p, d :: ds => p = some d ∧ ∃ c q, h.get? d = some c ∧ c.car = Slot.ptr q ∧ ChainIs h q ds

/-- Marking only sets mark bits: every cell is either untouched or has
exactly its mark bit set. -/
def MarkPreserve (h h' : List Cell) : Prop :=
  ∀ i, h'.get? i = h.get? i ∨
    ∃ c, h.get? i = some c ∧ h'.get? i = some { c with mark := true }

/-- The marked set is closed under heap edges. -/
def ClosedM (h : List Cell) : Prop :=
  ∀ a b, getMark h a = true → b ∈ kids h a → b < h.length → getMark h b = true

/-- Marking from a list of optional roots, in order. -/
def markList (fuel : Nat) (h : List Cell) (ps : List (Option Nat)) : List Cell :=
  ps.foldl (fun h p => mark fuel h p) h

theorem markPhase_eq_markList (s : State) :
    markPhase s = markList (s.heap.length + 1)
      s.heap (s.bindingList :: s.protect.reverse) := rfl

theorem mark_length (fuel : Nat) (h : List Cell) (p : Option Nat) :
    (mark fuel h p).length = h.length := by
  induction fuel generalizing h p with
  | zero => rfl
  | succ fuel ih =>
    cases p with
    | none => rfl
    | some r =>
      rw [mark]
      cases hr : h.get? r with
      | none => rfl
      | some c =>
        by_cases hm : c.mark
        · simp [hm]
        · simp only [Bool.not_eq_true] at hm
          simp only [hm]
          by_cases ht : c.type = CellType.lambda ∨ c.type = CellType.list
          · simp [ht, ih, List.length_set]
          · simp [ht, List.length_set]

theorem lt_of_get?_eq_some {h : List Cell} {i : Nat} {c : Cell}
    (hc : h.get? i = some c) : i < h.length := by
  by_contra hge
  rw [List.get?_eq_none.mpr (Nat.le_of_not_lt hge)] at hc
  exact Option.noConfusion hc

theorem markPreserve_refl (h : List Cell) : MarkPreserve h h := fun _ => Or.inl rfl

theorem markPreserve_trans {h h' h'' : List Cell}
    (h1 : MarkPreserve h h') (h2 : MarkPreserve h' h'') : MarkPreserve h h'' := by
  intro i
  rcases h2 i with he | ⟨c, hc, he⟩
  · rw [he]; exact h1 i
  · rcases h1 i with he' | ⟨c', hc', he'⟩
    · rw [he'] at hc
      exact Or.inr ⟨c, hc, he⟩
    · rw [he'] at hc
      obtain rfl : { c' with mark := true } = c := by injection hc
      exact Or.inr ⟨c', hc', he⟩

theorem markPreserve_set {h : List Cell} {r : Nat} {c : Cell}
    (hr : h.get? r = some c) : MarkPreserve h (h.set r { c with mark := true }) := by
  intro i
  by_cases hir : r = i
  · subst hir
    refine Or.inr ⟨c, hr, ?_⟩
    rw [List.get?_eq_getElem?, List.getElem?_set_eq_of_lt _ (lt_of_get?_eq_some hr)]
  · rw [List.get?_eq_getElem?, List.getElem?_set_ne hir, ← List.get?_eq_getElem?]
    exact Or.inl rfl

theorem mark_markPreserve (fuel : Nat) (h : List Cell) (p : Option Nat) :
    MarkPreserve h (mark fuel h p) := by
  induction fuel generalizing h p with
  | zero => exact markPreserve_refl h
  | succ fuel ih =>
    cases p with
    | none => exact markPreserve_refl h
    | some r =>
      rw [mark]
      cases hr : h.get? r with
      | none => exact markPreserve_refl h
      | some c =>
        by_cases hm : c.mark
        · simp only [hm, if_true]
          exact markPreserve_refl h
        · simp only [Bool.not_eq_true] at hm
          simp only [hm]
          by_cases ht : c.type = CellType.lambda ∨ c.type = CellType.list
          · simp only [ht, if_true]
            exact markPreserve_trans (markPreserve_set hr)
              (markPreserve_trans (ih _ _) (ih _ _))
          · simp only [ht, if_false]
            exact markPreserve_set hr

theorem markPreserve_kids {h h' : List Cell} (hp : MarkPreserve h h') (i : Nat) :
    kids h' i = kids h i := by
  rcases hp i with he | ⟨c, hc, he⟩
  · rw [kids, he, kids]
  · rw [kids, he, kids, hc]

theorem markPreserve_mono {h h' : List Cell} (hp : MarkPreserve h h') {i : Nat}
    (hm : getMark h i = true) : getMark h' i = true := by
  rcases hp i with he | ⟨c, hc, he⟩
  · rw [getMark, he, ← getMark]; exact hm
  · rw [getMark, he]

theorem markPreserve_unmarked {h h' : List Cell} (hp : MarkPreserve h h') {i : Nat}
    (hm : getMark h' i = false) : getMark h i = false := by
  by_contra hne
  rw [markPreserve_mono hp (Bool.of_not_eq_false hne)] at hm
  exact Bool.noConfusion hm

theorem getMark_set_mark {h : List Cell} {r : Nat} {c : Cell}
    (hr : h.get? r = some c) (i : Nat) :
    (getMark (h.set r { c with mark := true }) i = true) ↔ (i = r ∨ getMark h i = true) := by
  by_cases hir : r = i
  · subst hir
    rw [getMark, List.get?_eq_getElem?, List.getElem?_set_eq_of_lt _ (lt_of_get?_eq_some hr)]
    simp
  · rw [getMark, List.get?_eq_getElem?, List.getElem?_set_ne hir, ← List.get?_eq_getElem?,
      ← getMark]
    simp [Ne.symm hir]

theorem unmarkedCount_set_mark {h : List Cell} {r : Nat} {c : Cell}
    (hr : h.get? r = some c) (hm : c.mark = false) :
    unmarkedCount (h.set r { c with mark := true }) = unmarkedCount h - 1 ∧
    0 < unmarkedCount h := by
  have hlt : r < h.length := lt_of_get?_eq_some hr
  have hel : h[r] = c := by
    have := hr
    rwa [List.get?_eq_getElem?, List.getElem?_eq_getElem hlt, Option.some_inj] at this
  constructor
  · rw [unmarkedCount, unmarkedCount, List.countP_set _ _ _ _ hlt, hel]
    simp [hm]
  · rw [unmarkedCount, List.countP_pos_iff]
    exact ⟨c, hel ▸ List.getElem_mem hlt, by simp [hm]⟩

theorem mark_unmarkedCount_le (fuel : Nat) (h : List Cell) (p : Option Nat) :
    unmarkedCount (mark fuel h p) ≤ unmarkedCount h := by
  induction fuel generalizing h p with
  | zero => exact Nat.le_refl _
  | succ fuel ih =>
    cases p with
    | none => exact Nat.le_refl _
    | some r =>
      rw [mark]
      cases hr : h.get? r with
      | none => exact Nat.le_refl _
      | some c =>
        by_cases hm : c.mark
        · simp only [hm, if_true]
          exact Nat.le_refl _
        · simp only [Bool.not_eq_true] at hm
          simp only [hm]
          rw [if_neg (by simp : ¬(false = true))]
          have hdec := (unmarkedCount_set_mark hr hm).1
          by_cases ht : c.type = CellType.lambda ∨ c.type = CellType.list
          · rw [if_pos ht]
            calc unmarkedCount (mark fuel (mark fuel (h.set r { c with mark := true }) c.car.ptrOf) c.cdr.ptrOf)
                ≤ unmarkedCount (mark fuel (h.set r { c with mark := true }) c.car.ptrOf) := ih _ _
              _ ≤ unmarkedCount (h.set r { c with mark := true }) := ih _ _
              _ ≤ unmarkedCount h := by rw [hdec]; exact Nat.sub_le _ _
          · rw [if_neg ht, hdec]
            exact Nat.sub_le _ _

/-- Root facts of a `UReach` derivation. -/
theorem UReach_root {h : List Cell} {r i : Nat} (hu : UReach h r i) :
    r < h.length ∧ getMark h r = false := by
  cases hu with
  | refl _ hv hm => exact ⟨hv, hm⟩
  | head _ _ _ hv hm _ _ => exact ⟨hv, hm⟩

/-- Target facts of a `UReach` derivation. -/
theorem UReach_target {h : List Cell} {r i : Nat} (hu : UReach h r i) :
    i < h.length ∧ getMark h i = false := by
  induction hu with
  | refl _ hv hm => exact ⟨hv, hm⟩
  | head _ _ _ _ _ _ _ ih => exact ih

theorem UReach_trans {h : List Cell} {a b c : Nat}
    (h1 : UReach h a b) (h2 : UReach h b c) : UReach h a c := by
  induction h1 with
  | refl => exact h2
  | head i j k hv hm hj _ ih => exact UReach.head i j c hv hm hj (ih h2)

theorem UReach_snoc {h : List Cell} {a b j : Nat}
    (h1 : UReach h a b) (hj : j ∈ kids h b) (hjv : j < h.length)
    (hjm : getMark h j = false) : UReach h a j := by
  induction h1 with
  | refl i hv hm => exact UReach.head i j j hv hm hj (UReach.refl j hjv hjm)
  | head i k l hv hm hk _ ih => exact UReach.head i k j hv hm hk (ih hj)

/-- Transfer a `UReach` derivation to a heap with the same skeleton and
fewer marks. -/
theorem UReach_anti {h h' : List Cell}
    (hk : ∀ i, kids h' i = kids h i) (hl : h'.length = h.length)
    (hm : ∀ i, getMark h i = true → getMark h' i = true)
    {r i : Nat} (hu : UReach h' r i) : UReach h r i := by
  induction hu with
  | refl i hv hmk =>
    refine UReach.refl i (hl ▸ hv) ?_
    by_contra hne
    rw [hm i (Bool.of_not_eq_false hne)] at hmk
    exact Bool.noConfusion hmk
  | head i j k hv hmk hj _ ih =>
    refine UReach.head i j k (hl ▸ hv) ?_ (hk i ▸ hj) ih
    by_contra hne
    rw [hm i (Bool.of_not_eq_false hne)] at hmk
    exact Bool.noConfusion hmk

theorem UReach_to_Reach {h : List Cell} {r i : Nat} (hu : UReach h r i) :
    Reach h r i := by
  induction hu with
  | refl i hv _ => exact Reach.refl i hv
  | head i j k hv _ hj _ ih => exact Reach.head i j k hv hj ih

/-- Absorb a `UReach` path into a set of marked cells that is closed
over unmarked edges. -/
theorem UReach_absorb {h : List Cell} (M : Nat → Prop)
    (hclosed : ∀ a b, M a → getMark h a = false → b ∈ kids h a →
       b < h.length → getMark h b = false → M b)
    {r i : Nat} (hu : UReach h r i) (hr : M r) : M i := by
  induction hu with
  | refl => exact hr
  | head i j k hv hm hj ht ih =>
    exact ih (hclosed i j hr hm hj (UReach_root ht).1 (UReach_root ht).2)

theorem not_UReach_of_invalid {h : List Cell} {r i : Nat}
    (hr : h.get? r = none) : ¬ UReach h r i := by
  intro hu
  have hv := (UReach_root hu).1
  have := List.get?_eq_none.mp hr
  omega

theorem not_UReach_of_marked {h : List Cell} {r i : Nat} {c : Cell}
    (hr : h.get? r = some c) (hm : c.mark = true) : ¬ UReach h r i := by
  intro hu
  have h2 := (UReach_root hu).2
  have hr2 := hr
  rw [List.get?_eq_getElem?] at hr2
  simp [getMark, hr2, hm] at h2

theorem UReachO_of {h : List Cell} {p : Option Nat} {k i : Nat}
    (hp : p = some k) (hu : UReach h k i) : UReachO h p i := by
  rw [hp]; exact hu

theorem UReachO_elim {h : List Cell} {p : Option Nat} {i : Nat}
    (hu : UReachO h p i) : ∃ k, p = some k ∧ UReach h k i := by
  cases p with
  | none => exact absurd hu id
  | some k => exact ⟨k, rfl, hu⟩

/-- The depth-first `mark` marks exactly the already-marked cells plus
the cells reachable from the root through unmarked cells, provided the
fuel exceeds the number of unmarked cells. -/
theorem mark_spec (n : Nat) : ∀ (fuel : Nat) (h : List Cell) (p : Option Nat) (i : Nat),
    unmarkedCount h ≤ n → n < fuel →
    (getMark (mark fuel h p) i = true ↔ (getMark h i = true ∨ UReachO h p i)) := by
  induction n with
  | zero =>
    intro fuel h p i hcnt hfuel
    cases fuel with
    | zero => omega
    | succ f =>
      cases p with
      | none => simp [mark, UReachO]
      | some r =>
        rw [mark]
        cases hr : h.get? r with
        | none =>
          simp only [UReachO]
          exact ⟨Or.inl, fun hc => hc.elim id
            (fun hu => absurd hu (not_UReach_of_invalid hr))⟩
        | some c =>
          dsimp only
          have hcm : c.mark = true := by
            by_contra hne
            have := (unmarkedCount_set_mark hr (Bool.not_eq_true _ ▸
              Bool.of_not_eq_true hne)).2
            omega
          rw [if_pos hcm]
          simp only [UReachO]
          exact ⟨Or.inl, fun hc => hc.elim id
            (fun hu => absurd hu (not_UReach_of_marked hr hcm))⟩
  | succ n ihn =>
    intro fuel h p i hcnt hfuel
    cases fuel with
    | zero => omega
    | succ f =>
      cases p with
      | none => simp [mark, UReachO]
      | some r =>
        rw [mark]
        cases hr : h.get? r with
        | none =>
          simp only [UReachO]
          exact ⟨Or.inl, fun hc => hc.elim id
            (fun hu => absurd hu (not_UReach_of_invalid hr))⟩
        | some c =>
          dsimp only
          by_cases hcmt : c.mark = true
          · rw [if_pos hcmt]
            simp only [UReachO]
            exact ⟨Or.inl, fun hc => hc.elim id
              (fun hu => absurd hu (not_UReach_of_marked hr hcmt))⟩
          · have hm : c.mark = false := Bool.of_not_eq_true hcmt
            rw [if_neg hcmt]
            have hrv : r < h.length := lt_of_get?_eq_some hr
            have hrE : h[r]? = some c := by rw [← List.get?_eq_getElem?]; exact hr
            have hgr : getMark h r = false := by rw [getMark, hr]; exact hm
            have hcount1 := (unmarkedCount_set_mark hr hm).1
            have hpos := (unmarkedCount_set_mark hr hm).2
            have hc1 : unmarkedCount (h.set r { c with mark := true }) ≤ n := by omega
            have hfuel1 : n < f := by omega
            have hpres1 : MarkPreserve h (h.set r { c with mark := true }) :=
              markPreserve_set hr
            have hE1 := getMark_set_mark hr
            have hl1 : (h.set r { c with mark := true }).length = h.length :=
              List.length_set h r _
            by_cases ht : c.type = CellType.lambda ∨ c.type = CellType.list
            · rw [if_pos ht]
              have hkr : kids h r = c.car.ptrOf.toList ++ c.cdr.ptrOf.toList := by
                simp [kids, hrE, ht]
              have hpres2 : MarkPreserve (h.set r { c with mark := true })
                  (mark f (h.set r { c with mark := true }) c.car.ptrOf) :=
                mark_markPreserve f _ _
              have hpresh2 : MarkPreserve h
                  (mark f (h.set r { c with mark := true }) c.car.ptrOf) :=
                markPreserve_trans hpres1 hpres2
              have hk1e : ∀ j, kids (h.set r { c with mark := true }) j = kids h j :=
                markPreserve_kids hpres1
              have hk2e : ∀ j, kids (mark f (h.set r { c with mark := true }) c.car.ptrOf) j = kids h j :=
                markPreserve_kids hpresh2
              have hl2 : (mark f (h.set r { c with mark := true }) c.car.ptrOf).length = h.length := by
                rw [mark_length]; exact hl1
              have ih1 : ∀ j, getMark (mark f (h.set r { c with mark := true }) c.car.ptrOf) j = true ↔
                  (getMark (h.set r { c with mark := true }) j = true ∨
                   UReachO (h.set r { c with mark := true }) c.car.ptrOf j) :=
                fun j => ihn f _ c.car.ptrOf j hc1 hfuel1
              have hcnt2 : unmarkedCount (mark f (h.set r { c with mark := true }) c.car.ptrOf) ≤ n :=
                le_trans (mark_unmarkedCount_le f _ _) hc1
              have ih2 : ∀ j, getMark (mark f (mark f (h.set r { c with mark := true }) c.car.ptrOf) c.cdr.ptrOf) j = true ↔
                  (getMark (mark f (h.set r { c with mark := true }) c.car.ptrOf) j = true ∨
                   UReachO (mark f (h.set r { c with mark := true }) c.car.ptrOf) c.cdr.ptrOf j) :=
                fun j => ihn f _ c.cdr.ptrOf j hcnt2 hfuel1
              have hE1f : ∀ j, j ≠ r → getMark h j = false →
                  getMark (h.set r { c with mark := true }) j = false := by
                intro j hjr hjm
                by_contra hne
                rcases (hE1 j).mp (Bool.of_not_eq_false hne) with hceq | hcm2
                · exact hjr hceq
                · rw [hcm2] at hjm; exact Bool.noConfusion hjm
              rw [ih2 i, ih1 i, hE1 i]
              constructor
              · rintro ((hca | hca) | hca)
                · rcases hca with rfl | hca
                  · exact Or.inr (UReach.refl i hrv hgr)
                  · exact Or.inl hca
                · obtain ⟨k, hk1, hca'⟩ := UReachO_elim hca
                  have hu : UReach h k i := UReach_anti hk1e hl1
                    (fun j => markPreserve_mono hpres1) hca'
                  have hkm : k ∈ kids h r := by
                    rw [hkr, hk1]; simp
                  exact Or.inr (UReach.head r k i hrv hgr hkm hu)
                · obtain ⟨k, hk2, hca'⟩ := UReachO_elim hca
                  have hu : UReach h k i := UReach_anti hk2e hl2
                    (fun j => markPreserve_mono hpresh2) hca'
                  have hkm : k ∈ kids h r := by
                    rw [hkr, hk2]; simp
                  exact Or.inr (UReach.head r k i hrv hgr hkm hu)
              · intro hca
                rcases hca with hca | hu
                · exact Or.inl (Or.inl (Or.inr hca))
                · refine UReach_absorb
                    (fun x => ((x = r ∨ getMark h x = true) ∨
                       UReachO (h.set r { c with mark := true }) c.car.ptrOf x) ∨
                       UReachO (mark f (h.set r { c with mark := true }) c.car.ptrOf) c.cdr.ptrOf x)
                    ?_ hu (Or.inl (Or.inl (Or.inl rfl)))
                  intro a b hMa hma hb hbv hbm
                  by_cases hbr : b = r
                  · exact Or.inl (Or.inl (Or.inl hbr))
                  · have hbm1 : getMark (h.set r { c with mark := true }) b = false :=
                      hE1f b hbr hbm
                    rcases hMa with ((har | hMa) | hMa) | hMa
                    · rw [har, hkr] at hb
                      rcases List.mem_append.mp hb with hbk | hbk
                      · have hk1 : c.car.ptrOf = some b := by
                          cases hcc : c.car.ptrOf with
                          | none => rw [hcc] at hbk; simp at hbk
                          | some k =>
                            rw [hcc] at hbk
                            simp at hbk
                            rw [hbk]
                        exact Or.inl (Or.inr (UReachO_of hk1
                          (UReach.refl b (hl1 ▸ hbv) hbm1)))
                      · have hk2 : c.cdr.ptrOf = some b := by
                          cases hcc : c.cdr.ptrOf with
                          | none => rw [hcc] at hbk; simp at hbk
                          | some k =>
                            rw [hcc] at hbk
                            simp at hbk
                            rw [hbk]
                        by_cases hb2 : getMark (mark f (h.set r { c with mark := true }) c.car.ptrOf) b = true
                        · rcases (ih1 b).mp hb2 with hb3 | hb3
                          · rcases (hE1 b).mp hb3 with hceq | hcm2
                            · exact absurd hceq hbr
                            · rw [hcm2] at hbm; exact Bool.noConfusion hbm
                          · exact Or.inl (Or.inr hb3)
                        · exact Or.inr (UReachO_of hk2
                            (UReach.refl b (hl2 ▸ hbv) (Bool.of_not_eq_true hb2)))
                    · rw [hMa] at hma; exact Bool.noConfusion hma
                    · obtain ⟨k, hk1, hMa'⟩ := UReachO_elim hMa
                      exact Or.inl (Or.inr (UReachO_of hk1
                        (UReach_snoc hMa' ((hk1e a).symm ▸ hb) (hl1 ▸ hbv) hbm1)))
                    · obtain ⟨k, hk2, hMa'⟩ := UReachO_elim hMa
                      by_cases hb2 : getMark (mark f (h.set r { c with mark := true }) c.car.ptrOf) b = true
                      · rcases (ih1 b).mp hb2 with hb3 | hb3
                        · rcases (hE1 b).mp hb3 with hceq | hcm2
                          · exact absurd hceq hbr
                          · rw [hcm2] at hbm; exact Bool.noConfusion hbm
                        · exact Or.inl (Or.inr hb3)
                      · exact Or.inr (UReachO_of hk2
                          (UReach_snoc hMa' ((hk2e a).symm ▸ hb) (hl2 ▸ hbv)
                            (Bool.of_not_eq_true hb2)))
            · rw [if_neg ht]
              have hkr : kids h r = [] := by simp [kids, hrE, ht]
              rw [hE1 i]
              constructor
              · rintro (rfl | hmk)
                · exact Or.inr (UReach.refl i hrv hgr)
                · exact Or.inl hmk
              · rintro (hmk | hu)
                · exact Or.inr hmk
                · cases hu with
                  | refl => exact Or.inl rfl
                  | head _ j _ _ _ hj _ => rw [hkr] at hj; simp at hj

theorem Reach_root {h : List Cell} {r i : Nat} (hr : Reach h r i) : r < h.length := by
  cases hr with
  | refl _ hv => exact hv
  | head _ _ _ hv _ _ => exact hv

theorem Reach_absorb {h : List Cell} (M : Nat → Prop)
    (hclosed : ∀ a b, M a → b ∈ kids h a → b < h.length → M b)
    {r i : Nat} (hr : Reach h r i) (hM : M r) : M i := by
  induction hr with
  | refl => exact hM
  | head i j k hv hj ht ih => exact ih (hclosed i j hM hj (Reach_root ht))

theorem Reach_congr {h h' : List Cell}
    (hk : ∀ j, kids h' j = kids h j) (hl : h'.length = h.length)
    {r i : Nat} : Reach h' r i ↔ Reach h r i := by
  constructor
  · intro hr
    induction hr with
    | refl i hv => exact Reach.refl i (hl ▸ hv)
    | head i j k hv hj _ ih => exact Reach.head i j k (hl ▸ hv) (hk i ▸ hj) ih
  · intro hr
    induction hr with
    | refl i hv => exact Reach.refl i (hl ▸ hv)
    | head i j k hv hj _ ih => exact Reach.head i j k (hl ▸ hv) ((hk i).symm ▸ hj) ih

theorem ReachO_elim {h : List Cell} {p : Option Nat} {i : Nat}
    (hu : ReachO h p i) : ∃ k, p = some k ∧ Reach h k i := by
  cases p with
  | none => exact absurd hu id
  | some k => exact ⟨k, rfl, hu⟩

theorem ReachO_of {h : List Cell} {p : Option Nat} {k i : Nat}
    (hp : p = some k) (hu : Reach h k i) : ReachO h p i := by
  rw [hp]; exact hu

theorem unmarkedCount_le_length (h : List Cell) : unmarkedCount h ≤ h.length :=
  List.countP_le_length _

/-- One marking pass from a closed heap: closure is preserved and the
marked set grows by exactly the cells reachable from the root. -/
theorem mark_step_closed {h : List Cell} (p : Option Nat) {fuel : Nat}
    (hcl : ClosedM h) (hfuel : h.length < fuel) :
    ClosedM (mark fuel h p) ∧
    (∀ i, getMark (mark fuel h p) i = true ↔ (getMark h i = true ∨ ReachO h p i)) := by
  have hcf : unmarkedCount h < fuel := lt_of_le_of_lt (unmarkedCount_le_length h) hfuel
  have hspec : ∀ i, getMark (mark fuel h p) i = true ↔
      (getMark h i = true ∨ UReachO h p i) :=
    fun i => mark_spec (unmarkedCount h) fuel h p i (Nat.le_refl _) hcf
  have hpres : MarkPreserve h (mark fuel h p) := mark_markPreserve fuel h p
  have hke : ∀ j, kids (mark fuel h p) j = kids h j := markPreserve_kids hpres
  have hle : (mark fuel h p).length = h.length := mark_length fuel h p
  have hclosed' : ClosedM (mark fuel h p) := by
    intro a b hma hb hbv
    rw [hke a] at hb
    rw [hle] at hbv
    rcases (hspec a).mp hma with hma' | hma'
    · exact (hspec b).mpr (Or.inl (hcl a b hma' hb hbv))
    · obtain ⟨r, hp, hu⟩ := UReachO_elim hma'
      by_cases hbm : getMark h b = true
      · exact (hspec b).mpr (Or.inl hbm)
      · exact (hspec b).mpr (Or.inr (UReachO_of hp
          (UReach_snoc hu hb hbv (Bool.of_not_eq_true hbm))))
  refine ⟨hclosed', fun i => ?_⟩
  constructor
  · intro hmk
    rcases (hspec i).mp hmk with hmk' | hmk'
    · exact Or.inl hmk'
    · obtain ⟨r, hp, hu⟩ := UReachO_elim hmk'
      exact Or.inr (ReachO_of hp (UReach_to_Reach hu))
  · rintro (hmk | hre)
    · exact (hspec i).mpr (Or.inl hmk)
    · obtain ⟨r, hp, hre'⟩ := ReachO_elim hre
      refine Reach_absorb (fun x => getMark (mark fuel h p) x = true) ?_ hre' ?_
      · intro a b hMa hb hbv
        exact hclosed' a b hMa ((hke a).symm ▸ hb) (hle ▸ hbv)
      · by_cases hrm : getMark h r = true
        · exact (hspec r).mpr (Or.inl hrm)
        · exact (hspec r).mpr (Or.inr (UReachO_of hp
            (UReach.refl r (Reach_root hre') (Bool.of_not_eq_true hrm))))

/-- Marking from a list of roots on a closed heap: the marked set grows
by exactly the cells reachable from some root. -/
theorem markList_spec (ps : List (Option Nat)) : ∀ (h0 : List Cell) (F : Nat),
    ClosedM h0 → h0.length < F →
    ClosedM (markList F h0 ps) ∧
    (∀ i, getMark (markList F h0 ps) i = true ↔
      (getMark h0 i = true ∨ ∃ p ∈ ps, ReachO h0 p i)) ∧
    MarkPreserve h0 (markList F h0 ps) ∧
    (markList F h0 ps).length = h0.length := by
  induction ps with
  | nil =>
    intro h0 F hcl hF
    exact ⟨hcl, fun i => by simp [markList], markPreserve_refl h0, rfl⟩
  | cons p ps ih =>
    intro h0 F hcl hF
    have hstep := mark_step_closed p hcl hF
    have hpres1 : MarkPreserve h0 (mark F h0 p) := mark_markPreserve F h0 p
    have hl1 : (mark F h0 p).length = h0.length := mark_length F h0 p
    have hk1 : ∀ j, kids (mark F h0 p) j = kids h0 j := markPreserve_kids hpres1
    obtain ⟨hcl', hiff', hpres', hlen'⟩ := ih (mark F h0 p) F hstep.1 (hl1 ▸ hF)
    have hml : markList F h0 (p :: ps) = markList F (mark F h0 p) ps := rfl
    refine ⟨hml ▸ hcl', ?_, ?_, ?_⟩
    · intro i
      rw [hml, hiff' i, hstep.2 i]
      have hRe : ∀ q i, ReachO (mark F h0 p) q i ↔ ReachO h0 q i := by
        intro q i
        cases q with
        | none => exact Iff.rfl
        | some r => exact Reach_congr hk1 hl1
      constructor
      · rintro ((hmk | hre) | ⟨q, hq, hre⟩)
        · exact Or.inl hmk
        · exact Or.inr ⟨p, List.mem_cons_self _ _, hre⟩
        · exact Or.inr ⟨q, List.mem_cons_of_mem _ hq, (hRe q i).mp hre⟩
      · rintro (hmk | ⟨q, hq, hre⟩)
        · exact Or.inl (Or.inl hmk)
        · rcases List.mem_cons.mp hq with rfl | hq'
          · exact Or.inl (Or.inr hre)
          · exact Or.inr ⟨q, hq', (hRe q i).mpr hre⟩
    · rw [hml]
      exact markPreserve_trans hpres1 hpres'
    · rw [hml, hlen', hl1]

theorem ChainIs_set_of_not_mem {h : List Cell} {f : Option Nat} {D : List Nat}
    {i : Nat} {x : Cell} (hD : ChainIs h f D) (hi : i ∉ D) :
    ChainIs (h.set i x) f D := by
  induction D generalizing f with
  | nil => exact hD
  | cons d ds ih =>
    obtain ⟨hf, c, q, hc, hcar, hch⟩ := hD
    have hdi : i ≠ d := fun he => hi (he ▸ List.mem_cons_self d ds)
    refine ⟨hf, c, q, ?_, hcar, ih hch (fun hm => hi (List.mem_cons_of_mem _ hm))⟩
    rw [List.get?_eq_getElem?, List.getElem?_set_ne hdi, ← List.get?_eq_getElem?]
    exact hc

/-- Full characterisation of the sweep loop: processing the (nodup,
valid) index list `l` frees exactly the unmarked cells among `l`,
prepending them to the free chain, increments the count by the number of
freed cells, clears every processed mark bit, leaves marked cells
otherwise intact and unprocessed cells untouched. -/
theorem sweepGo_spec : ∀ (l : List Nat) (h : List Cell) (f : Option Nat) (c0 : Nat)
    (D : List Nat), ChainIs h f D → (∀ d ∈ D, d ∉ l) → (∀ i ∈ l, i < h.length) →
    l.Nodup →
    ∃ Dnew h' f',
      sweepGo l h f c0 = (h', f', c0 + Dnew.length) ∧
      ChainIs h' f' (Dnew ++ D) ∧
      (∀ i ∈ l, getMark h i = false → i ∈ Dnew) ∧
      (∀ i, i ∉ l → h'.get? i = h.get? i) ∧
      (∀ i ∈ l, ∀ c, h.get? i = some c → c.mark = true →
         h'.get? i = some { c with mark := false }) ∧
      (∀ i ∈ l, ∀ c', h'.get? i = some c' → c'.mark = false) ∧
      h'.length = h.length := by
  intro l
  induction l with
  | nil =>
    intro h f c0 D hD _ _ _
    exact ⟨[], h, f, rfl, hD, by simp, fun _ _ => rfl, by simp, by simp, rfl⟩
  | cons i rest ih =>
    intro h f c0 D hD hDl hv hnd
    have hiv : i < h.length := hv i (List.mem_cons_self i rest)
    have hir : i ∉ rest := (List.nodup_cons.mp hnd).1
    have hndr : rest.Nodup := (List.nodup_cons.mp hnd).2
    obtain ⟨cell, hcell⟩ : ∃ c, h.get? i = some c := by
      rw [List.get?_eq_getElem?, List.getElem?_eq_getElem hiv]
      exact ⟨_, rfl⟩
    have hcellE : h[i]? = some cell := by
      rw [← List.get?_eq_getElem?]; exact hcell
    have hDi : i ∉ D := fun hm => hDl i hm (List.mem_cons_self i rest)
    by_cases hmk : cell.mark = true
    · -- marked: clear the bit and continue
      have hch1 : ChainIs (h.set i { cell with mark := false }) f D :=
        ChainIs_set_of_not_mem hD hDi
      have hvr : ∀ j ∈ rest, j < (h.set i { cell with mark := false }).length := by
        intro j hj
        rw [List.length_set]
        exact hv j (List.mem_cons_of_mem _ hj)
      obtain ⟨Dnew, h', f', heq, hch, hmem, hfr, hclr, hunm, hlen⟩ :=
        ih (h.set i { cell with mark := false }) f c0 D hch1
          (fun d hd hdm => hDl d hd (List.mem_cons_of_mem _ hdm)) hvr hndr
      have hstep : sweepGo (i :: rest) h f c0 =
          sweepGo rest (h.set i { cell with mark := false }) f c0 := by
        simp only [sweepGo, hcell]
        rw [if_pos hmk]
      have hgije : ∀ j, j ≠ i →
          (h.set i { cell with mark := false }).get? j = h.get? j := by
        intro j hji
        rw [List.get?_eq_getElem?, List.getElem?_set_ne (Ne.symm hji),
          ← List.get?_eq_getElem?]
      refine ⟨Dnew, h', f', hstep ▸ heq, hch, ?_, ?_, ?_, ?_, by rw [hlen, List.length_set]⟩
      · intro j hj hjm
        rcases List.mem_cons.mp hj with rfl | hj'
        · simp [getMark, hcellE, hmk] at hjm
        · have hji : j ≠ i := fun he => hir (he ▸ hj')
          refine hmem j hj' ?_
          rw [getMark, hgije j hji, ← getMark]
          exact hjm
      · intro j hj
        have hji : j ≠ i := fun he => hj (he ▸ List.mem_cons_self i rest)
        have hjr : j ∉ rest := fun hm => hj (List.mem_cons_of_mem _ hm)
        rw [hfr j hjr, hgije j hji]
      · intro j hj c2 hc2 hc2m
        rcases List.mem_cons.mp hj with rfl | hj'
        · rw [hcell] at hc2
          obtain rfl : cell = c2 := by injection hc2
          rw [hfr j hir]
          rw [List.get?_eq_getElem?, List.getElem?_set_eq_of_lt _ hiv]
        · have hji : j ≠ i := fun he => hir (he ▸ hj')
          refine hclr j hj' c2 ?_ hc2m
          rw [hgije j hji]
          exact hc2
      · intro j hj c' hc'
        rcases List.mem_cons.mp hj with rfl | hj'
        · rw [hfr j hir, List.get?_eq_getElem?, List.getElem?_set_eq_of_lt _ hiv] at hc'
          obtain rfl : { cell with mark := false } = c' := by injection hc'
          rfl
        · exact hunm j hj' c' hc'
    · -- unmarked: link onto the free list
      have hmkf : cell.mark = false := Bool.of_not_eq_true hmk
      have hch1 : ChainIs (h.set i { cell with car := .ptr f, mark := false })
          (some i) (i :: D) := by
        refine ⟨rfl, { cell with car := .ptr f, mark := false }, f, ?_, rfl, ?_⟩
        · rw [List.get?_eq_getElem?, List.getElem?_set_eq_of_lt _ hiv]
        · exact ChainIs_set_of_not_mem hD hDi
      have hvr : ∀ j ∈ rest, j < (h.set i { cell with car := .ptr f, mark := false }).length := by
        intro j hj
        rw [List.length_set]
        exact hv j (List.mem_cons_of_mem _ hj)
      have hDl1 : ∀ d ∈ (i :: D), d ∉ rest := by
        intro d hd
        rcases List.mem_cons.mp hd with rfl | hd'
        · exact hir
        · exact fun hm => hDl d hd' (List.mem_cons_of_mem _ hm)
      obtain ⟨Dnew, h', f', heq, hch, hmem, hfr, hclr, hunm, hlen⟩ :=
        ih (h.set i { cell with car := .ptr f, mark := false }) (some i) (c0 + 1)
          (i :: D) hch1 hDl1 hvr hndr
      have hstep : sweepGo (i :: rest) h f c0 =
          sweepGo rest (h.set i { cell with car := .ptr f, mark := false })
            (some i) (c0 + 1) := by
        simp only [sweepGo, hcell]
        rw [if_neg hmk]
      have hgije : ∀ j, j ≠ i →
          (h.set i { cell with car := .ptr f, mark := false }).get? j = h.get? j := by
        intro j hji
        rw [List.get?_eq_getElem?, List.getElem?_set_ne (Ne.symm hji),
          ← List.get?_eq_getElem?]
      refine ⟨Dnew ++ [i], h', f', ?_, ?_, ?_, ?_, ?_, ?_, by rw [hlen, List.length_set]⟩
      · rw [hstep, heq, List.length_append]
        simp [Nat.add_assoc, Nat.add_comm 1]
      · rw [List.append_assoc]
        simpa using hch
      · intro j hj hjm
        rcases List.mem_cons.mp hj with rfl | hj'
        · simp
        · have hji : j ≠ i := fun he => hir (he ▸ hj')
          refine List.mem_append_left _ (hmem j hj' ?_)
          rw [getMark, hgije j hji, ← getMark]
          exact hjm
      · intro j hj
        have hji : j ≠ i := fun he => hj (he ▸ List.mem_cons_self i rest)
        have hjr : j ∉ rest := fun hm => hj (List.mem_cons_of_mem _ hm)
        rw [hfr j hjr, hgije j hji]
      · intro j hj c2 hc2 hc2m
        rcases List.mem_cons.mp hj with rfl | hj'
        · rw [hcell] at hc2
          obtain rfl : cell = c2 := by injection hc2
          rw [hc2m] at hmkf
          exact Bool.noConfusion hmkf
        · have hji : j ≠ i := fun he => hir (he ▸ hj')
          refine hclr j hj' c2 ?_ hc2m
          rw [hgije j hji]
          exact hc2
      · intro j hj c' hc'
        rcases List.mem_cons.mp hj with rfl | hj'
        · rw [hfr j hir, List.get?_eq_getElem?, List.getElem?_set_eq_of_lt _ hiv] at hc'
          obtain rfl : { cell with car := Slot.ptr f, mark := false } = c' := by
            injection hc'
          rfl
        · exact hunm j hj' c' hc'

theorem getMark_false_of_all {h : List Cell} (hm0 : ∀ c ∈ h, c.mark = false)
    (i : Nat) : getMark h i = false := by
  rw [getMark]
  cases hc : h.get? i with
  | none => rfl
  | some c => exact hm0 c (List.get?_mem hc)

theorem getMark_true_lt {h : List Cell} {i : Nat} (hm : getMark h i = true) :
    i < h.length := by
  rw [getMark] at hm
  cases hc : h.get? i with
  | none => rw [hc] at hm; exact Bool.noConfusion hm
  | some c => exact lt_of_get?_eq_some hc

theorem cell_eta_unmark {c : Cell} (hm : c.mark = false) :
    { c with mark := false } = c := by
  cases c
  simp_all

/-- C1: for a run of the collector from a state in which every mark bit
is clear and the free list is empty (as in every actual invocation, which
happens only from `new_cell` on an empty free list): every cell reachable
from the binding list or the protection stack is exactly preserved —
same tag, same payload slots, mark bit still clear; every cell left
unmarked by the mark phase is linked into the free list chain the sweep
builds; and every cell in the heap has a clear mark bit afterwards. -/
theorem C1_gc_preserves_reachable (s s' : State)
    (hm0 : ∀ c ∈ s.heap, c.mark = false)
    (hfree : s.freeList = none)
    (hok : garbageCollect s = Except.ok s') :
    (∀ i, RootReach s i → s'.heap.get? i = s.heap.get? i) ∧
    (∃ D, ChainIs s'.heap s'.freeList D ∧
       ∀ i, i < s.heap.length → getMark (markPhase s) i = false → i ∈ D) ∧
    (∀ i c, s'.heap.get? i = some c → c.mark = false) := by
  have hcl0 : ClosedM s.heap := by
    intro a b hma _ _
    rw [getMark_false_of_all hm0 a] at hma
    exact Bool.noConfusion hma
  obtain ⟨hclM, hiffM, hpresM, hlenM⟩ :=
    markList_spec (s.bindingList :: s.protect.reverse) s.heap (s.heap.length + 1)
      hcl0 (Nat.lt_succ_self _)
  have hmp := markPhase_eq_markList s
  have hlenMP : (markPhase s).length = s.heap.length := by rw [hmp]; exact hlenM
  obtain ⟨Dnew, h3, f3, hsw, hch, hmem, hfr, hclr, hunm, hlen3⟩ :=
    sweepGo_spec (List.range s.heap.length) (markPhase s) none 0 [] rfl
      (by simp) (fun i hi => by rw [hlenMP]; exact List.mem_range.mp hi)
      (List.nodup_range _)
  have hokk := hok
  rw [garbageCollect] at hokk
  rw [hfree, hsw] at hokk
  dsimp only at hokk
  by_cases hD0 : Dnew.length = 0
  · rw [if_pos (by omega)] at hokk
    exact Except.noConfusion hokk
  · rw [if_neg (by omega)] at hokk
    have hs' : s' = { s with heap := h3, freeList := f3 } := by
      injection hokk with h1
      exact h1.symm
    subst hs'
    refine ⟨?_, ⟨Dnew, by simpa using hch, ?_⟩, ?_⟩
    · intro i hri
      have hre : ∃ p ∈ (s.bindingList :: s.protect.reverse), ReachO s.heap p i := by
        rcases hri with hre | ⟨p, hp, hre⟩
        · exact ⟨s.bindingList, List.mem_cons_self _ _, hre⟩
        · exact ⟨p, List.mem_cons_of_mem _ (List.mem_reverse.mpr hp), hre⟩
      have hmarked : getMark (markPhase s) i = true := by
        rw [hmp]
        exact (hiffM i).mpr (Or.inr hre)
      have hiv : i < s.heap.length := by
        have := getMark_true_lt hmarked
        rwa [hlenMP] at this
      have hirange : i ∈ List.range s.heap.length := List.mem_range.mpr hiv
      obtain ⟨c2, hc2⟩ : ∃ c2, (markPhase s).get? i = some c2 := by
        rw [getMark] at hmarked
        cases hc : (markPhase s).get? i with
        | none => rw [hc] at hmarked; exact Bool.noConfusion hmarked
        | some c2 => exact ⟨c2, rfl⟩
      have hc2m : c2.mark = true := by
        rw [getMark, hc2] at hmarked
        exact hmarked
      have hclear := hclr i hirange c2 hc2 hc2m
      rcases hpresM i with hpe | ⟨c, hc, he⟩
      · rw [← hmp] at hpe
        rw [hpe] at hc2
        have : c2 ∈ s.heap := List.get?_mem hc2
        rw [hm0 c2 this] at hc2m
        exact Bool.noConfusion hc2m
      · rw [← hmp] at he
        rw [he] at hc2
        obtain rfl : { c with mark := true } = c2 := by injection hc2
        have hcm : c.mark = false := hm0 c (List.get?_mem hc)
        show h3.get? i = s.heap.get? i
        rw [hclear, hc]
        congr 1
        exact cell_eta_unmark hcm
    · intro i hlt hunm2
      exact hmem i (List.mem_range.mpr hlt) hunm2
    · intro i c hc
      by_cases hiv : i < s.heap.length
      · exact hunm i (List.mem_range.mpr hiv) c hc
      · exfalso
        have : h3.get? i = none := by
          rw [List.get?_eq_none, hlen3, hlenMP]
          omega
        rw [hc] at this
        exact Option.noConfusion this

/-- Concrete state for the C1 witness: a binding list (cells 0–1), one
protected cell, and two unreachable cells (2–3). -/
def wsC1 : State :=
  { heap := [⟨.ptr (some 1), .ptr none, .list, false⟩,
             ⟨.name "a", .ptr none, .atom, false⟩,
             ⟨.ptr (some 1), .ptr (some 0), .list, false⟩,
             ⟨.ptr none, .ptr none, .list, false⟩],
    freeList := none, bindingList := some 0, protect := [some 1],
    nilIdx := 1, errorIdx := 1, trueIdx := 1, quoteIdx := 1, diags := 0 }

/-- The state after collecting `wsC1`: cells 2 and 3 are freed. -/
def wsC1out : State :=
  { heap := [⟨.ptr (some 1), .ptr none, .list, false⟩,
             ⟨.name "a", .ptr none, .atom, false⟩,
             ⟨.ptr none, .ptr (some 0), .list, false⟩,
             ⟨.ptr (some 2), .ptr none, .list, false⟩],
    freeList := some 3, bindingList := some 0, protect := [some 1],
    nilIdx := 1, errorIdx := 1, trueIdx := 1, quoteIdx := 1, diags := 0 }

/-- Witness for C1 at a concrete state. -/
theorem C1_witness :
    (∀ i, RootReach wsC1 i → wsC1out.heap.get? i = wsC1.heap.get? i) ∧
    (∃ D, ChainIs wsC1out.heap wsC1out.freeList D ∧
       ∀ i, i < wsC1.heap.length → getMark (markPhase wsC1) i = false → i ∈ D) ∧
    (∀ i c, wsC1out.heap.get? i = some c → c.mark = false) :=
  C1_gc_preserves_reachable wsC1 wsC1out (by decide) (by decide) (by decide)

/-! ## Claim C10: surplus formals and surplus actuals -/

theorem argnChainB_frame {s s' : State} (hnil : s'.nilIdx = s.nilIdx) :
    ∀ {p : Option Nat} (L : List (Nat × Option Nat)),
    (∀ x ∈ L, heapAt s' x.1 = heapAt s x.1) →
    argnChainB s p L = true → argnChainB s' p L = true := by
  intro p L
  induction L generalizing p with
  | nil =>
    intro _ h
    simp only [argnChainB, hnil]
    simpa [argnChainB] using h
  | cons x rest ih =>
    obtain ⟨i, fa⟩ := x
    intro hf h
    have hfi : heapAt s' i = heapAt s i := hf (i, fa) (by simp)
    cases hc : heapAt s i with
    | none => simp [argnChainB, hc] at h
    | some c =>
      cases hcd : c.cdr with
      | ptr q =>
        simp only [argnChainB, hc, hcd, Bool.and_eq_true] at h
        have hr := ih (fun y hy => hf y (List.mem_cons_of_mem _ hy)) h.2.2
        simp only [argnChainB, hfi, hc, hcd, hnil, Bool.and_eq_true]
        exact ⟨h.1, h.2.1, hr⟩
      | name n => simp [argnChainB, hc, hcd] at h
      | prim pr => simp [argnChainB, hc, hcd] at h

theorem freePreB_frame {s s' : State} :
    ∀ {p : Option Nat} (L : List Nat),
    (∀ x ∈ L, heapAt s' x = heapAt s x) →
    freePreB s p L = true → freePreB s' p L = true := by
  intro p L
  induction L generalizing p with
  | nil => intro _ _; rfl
  | cons i rest ih =>
    intro hf h
    have hfi : heapAt s' i = heapAt s i := hf i (by simp)
    cases hc : heapAt s i with
    | none => simp [freePreB, hc] at h
    | some c =>
      cases hcr : c.car with
      | ptr q =>
        simp only [freePreB, hc, hcr, Bool.and_eq_true] at h
        have hr := ih (fun y hy => hf y (List.mem_cons_of_mem _ hy)) h.2
        simp only [freePreB, hfi, hc, hcr, Bool.and_eq_true]
        exact ⟨h.1, hr⟩
      | name n => simp [freePreB, hc, hcr] at h
      | prim pr => simp [freePreB, hc, hcr] at h

theorem SpineChain_frame {s s' : State} {stop : Option Nat} :
    ∀ {p : Option Nat} (L : List (Nat × Nat)),
    (∀ x ∈ L, heapAt s' x.1 = heapAt s x.1) →
    SpineChain s stop p L → SpineChain s' stop p L := by
  intro p L
  induction L generalizing p with
  | nil => intro _ h; exact h
  | cons x rest ih =>
    obtain ⟨sp, pr⟩ := x
    intro hf h
    obtain ⟨hp, c, hc, hcar, hty, q, hcdr, hrest⟩ := h
    exact ⟨hp, c, (hf (sp, pr) (by simp)).trans hc, hcar, hty, q, hcdr,
      ih (fun y hy => hf y (List.mem_cons_of_mem _ hy)) hrest⟩

theorem BChain_frame {s s' : State} {stop : Option Nat} :
    ∀ {p : Option Nat} (L : List Nat),
    (∀ x ∈ L, heapAt s' x = heapAt s x) →
    BChain s stop p L → BChain s' stop p L := by
  intro p L
  induction L generalizing p with
  | nil => intro _ h; exact h
  | cons n rest ih =>
    intro hf h
    obtain ⟨hp, c, hc, q, hcdr, hrest⟩ := h
    exact ⟨hp, c, (hf n (by simp)).trans hc, q, hcdr,
      ih (fun y hy => hf y (List.mem_cons_of_mem _ hy)) hrest⟩

theorem SpineChain_append {s : State} {q : Option Nat} {sp pr : Nat} {c : Cell}
    (hc : heapAt s sp = some c) (hcar : c.car = Slot.ptr (some pr))
    (hty : c.type = CellType.list) (hcdr : c.cdr = Slot.ptr q) :
    ∀ {p : Option Nat} (L : List (Nat × Nat)),
    SpineChain s (some sp) p L → SpineChain s q p (L ++ [(sp, pr)]) := by
  intro p L
  induction L generalizing p with
  | nil =>
    intro h
    exact ⟨h, c, hc, hcar, hty, q, hcdr, rfl⟩
  | cons x rest ih =>
    obtain ⟨sp', pr'⟩ := x
    intro h
    obtain ⟨hp, c', hc', hcar', hty', q', hcdr', hrest⟩ := h
    exact ⟨hp, c', hc', hcar', hty', q', hcdr', ih hrest⟩

theorem argnChainB_nil_elim {s : State} {p : Option Nat}
    (h : argnChainB s p [] = true) : p = none ∨ p = some s.nilIdx := by
  simpa [argnChainB] using h

theorem argnChainB_cons_elim {s : State} {p : Option Nat} {i : Nat}
    {fa : Option Nat} {L : List (Nat × Option Nat)}
    (h : argnChainB s p ((i, fa) :: L) = true) :
    p = some i ∧ i ≠ s.nilIdx ∧
      ∃ c, heapAt s i = some c ∧ c.car = Slot.ptr fa ∧
        ∃ q, c.cdr = Slot.ptr q ∧ argnChainB s q L = true := by
  cases hc : heapAt s i with
  | none => simp [argnChainB, hc] at h
  | some c =>
    cases hcd : c.cdr with
    | ptr q =>
      simp only [argnChainB, hc, hcd, Bool.and_eq_true, decide_eq_true_eq,
        Bool.not_eq_eq_eq_not, Bool.not_true, decide_eq_false_iff_not] at h
      exact ⟨h.1.1, h.1.2, c, rfl, h.2.1, q, hcd, h.2.2⟩
    | name n => simp [argnChainB, hc, hcd] at h
    | prim pr => simp [argnChainB, hc, hcd] at h

theorem freePreB_cons_elim {s : State} {p : Option Nat} {i : Nat}
    {L : List Nat} (h : freePreB s p (i :: L) = true) :
    p = some i ∧ ∃ c, heapAt s i = some c ∧
      ∃ q, c.car = Slot.ptr q ∧ freePreB s q L = true := by
  cases hc : heapAt s i with
  | none => simp [freePreB, hc] at h
  | some c =>
    cases hcr : c.car with
    | ptr q =>
      simp only [freePreB, hc, hcr, Bool.and_eq_true, decide_eq_true_eq] at h
      exact ⟨h.1, c, rfl, q, hcr, h.2⟩
    | name n => simp [freePreB, hc, hcr] at h
    | prim pr => simp [freePreB, hc, hcr] at h

theorem blistOkB_elim {s : State} {FR : List Nat} {p : Option Nat}
    (h : blistOkB s FR p = true) :
    ∃ bi, p = some bi ∧
      (bi = s.nilIdx ∨
        (∃ c, heapAt s bi = some c ∧ c.type = CellType.list ∧
          bi ≠ s.errorIdx ∧ bi ∉ FR)) := by
  cases p with
  | none => simp [blistOkB] at h
  | some bi =>
    refine ⟨bi, rfl, ?_⟩
    by_cases hn : bi = s.nilIdx
    · exact Or.inl hn
    · cases hc : heapAt s bi with
      | none => simp [blistOkB, hc, hn] at h
      | some c =>
        simp only [blistOkB, hc, hn, decide_False, Bool.false_or,
          Bool.and_eq_true, decide_eq_true_eq, Bool.not_eq_eq_eq_not,
          Bool.not_true, decide_eq_false_iff_not] at h
        exact Or.inr ⟨c, rfl, h.1.1, h.1.2, h.2⟩

set_option maxHeartbeats 2000000 in
/-- One pass of the binding loop with the actuals exhausted: the next
formal is bound to the empty list in a fresh pair cell `f1`, the pair is
consed onto the temporary list via a fresh spine cell `f2`, and the loop
recurses on the rest of the formal chain with the count incremented. -/
theorem evalLambdaLoop_step_nil
    (fuel : Nat) (s : State) (i : Nat) (fa q : Option Nat) (bi : Nat)
    (cell0 : Option Nat) (count0 : Int) (f1 f2 : Nat) (q2 : Option Nat)
    (ca c1 c2 bc : Cell)
    (hin : i ≠ s.nilIdx)
    (hca : heapAt s i = some ca) (hcaar : ca.car = Slot.ptr fa)
    (hcadr : ca.cdr = Slot.ptr q)
    (hfree : s.freeList = some f1)
    (hc1 : heapAt s f1 = some c1) (hcar1 : c1.car = Slot.ptr (some f2))
    (hc2 : heapAt s f2 = some c2) (hcar2 : c2.car = Slot.ptr q2)
    (hd12 : f1 ≠ f2) (hdi1 : f1 ≠ i) (hdi2 : f2 ≠ i)
    (hb1 : bi ≠ f1) (hb2 : bi ≠ f2)
    (hbc : heapAt s bi = some bc) (hbty : bc.type = CellType.list ∨ bi = s.nilIdx)
    (hf1e : f1 ≠ s.errorIdx) (hbe : bi ≠ s.errorIdx) :
    evalLambdaLoop (fuel + 1) s (some i) none (some bi) cell0 count0 =
      evalLambdaLoop fuel
        { s with
          heap := (s.heap.set f1 ⟨.ptr fa, .ptr (some s.nilIdx), .list, false⟩).set f2
            ⟨.ptr (some f1),
             if bi = s.nilIdx then Slot.ptr none else Slot.ptr (some bi),
             .list, false⟩,
          freeList := q2 }
        q none (some f2) (some s.nilIdx) (count0 + 1) := by
  simp only [heapAt, List.get?_eq_getElem?] at hca hc1 hc2 hbc
  have hvi : i < s.heap.length := by
    by_contra h
    rw [List.getElem?_eq_none (Nat.le_of_not_lt h)] at hca
    exact Option.noConfusion hca
  have hv1 : f1 < s.heap.length := by
    by_contra h
    rw [List.getElem?_eq_none (Nat.le_of_not_lt h)] at hc1
    exact Option.noConfusion hc1
  have hv2 : f2 < s.heap.length := by
    by_contra h
    rw [List.getElem?_eq_none (Nat.le_of_not_lt h)] at hc2
    exact Option.noConfusion hc2
  have hvb : bi < s.heap.length := by
    by_contra h
    rw [List.getElem?_eq_none (Nat.le_of_not_lt h)] at hbc
    exact Option.noConfusion hbc
  have hd21 := hd12.symm
  have hdi1' := hdi1.symm
  have hdi2' := hdi2.symm
  have hb1' := hb1.symm
  have hb2' := hb2.symm
  have hca' : s.heap[i] = ca := by
    have h := hca
    rwa [List.getElem?_eq_getElem hvi, Option.some_inj] at h
  have hc1' : s.heap[f1] = c1 := by
    have h := hc1
    rwa [List.getElem?_eq_getElem hv1, Option.some_inj] at h
  have hc2' : s.heap[f2] = c2 := by
    have h := hc2
    rwa [List.getElem?_eq_getElem hv2, Option.some_inj] at h
  have hbc' : s.heap[bi] = bc := by
    have h := hbc
    rwa [List.getElem?_eq_getElem hvb, Option.some_inj] at h
  by_cases hbn : bi = s.nilIdx
  · subst hbn
    simp [evalLambdaLoop, hin, newCell, cons, protectPush, unprotectS,
      setCell, setCar, setCdr, getCell, carPtr, cdrPtr, heapAt,
      List.get?_eq_getElem?, hfree, hca, hcaar, hcadr, hc1, hcar1, hc2, hcar2,
      hbc, hca', hc1', hc2', hbc', hf1e, hbe, hbe.symm, hd12, hd21, hdi1,
      hdi2, hdi1', hdi2', hb1, hb2, hb1', hb2', hvi, hv1, hv2, hvb,
      List.getElem?_set_ne, List.getElem?_set_eq_of_lt, List.length_set,
      List.set_set]
  · have hbty' : bc.type = CellType.list := hbty.resolve_right hbn
    simp [evalLambdaLoop, hin, newCell, cons, protectPush, unprotectS,
      setCell, setCar, setCdr, getCell, carPtr, cdrPtr, heapAt,
      List.get?_eq_getElem?, hfree, hca, hcaar, hcadr, hc1, hcar1, hc2, hcar2,
      hbc, hca', hc1', hc2', hbc', hbn, hbty', hf1e, hbe, hd12, hd21, hdi1,
      hdi2, hdi1', hdi2', hb1, hb2, hb1', hb2', hvi, hv1, hv2, hvb,
      List.getElem?_set_ne, List.getElem?_set_eq_of_lt, List.length_set,
      List.set_set]

/-- The binding loop of `eval_lambda` with the actuals exhausted
(`argv == NULL`): walking a formal chain `FL` with enough distinct fresh
free cells, every remaining formal is bound to the empty list — a pair
cell with the formal in its car and the empty list in its cdr is consed
onto the temporary binding list — the count rises by one per formal, and
no error is produced. -/
theorem evalLambdaLoop_binds_nil (FL : List (Nat × Option Nat)) :
    ∀ (fuel : Nat) (s : State) (argn blist0 cell0 : Option Nat)
      (count0 : Int) (FR : List Nat),
    argnChainB s argn FL = true →
    freePreB s s.freeList FR = true →
    2 * FL.length ≤ FR.length →
    FR.Nodup →
    (∀ j ∈ FR, j < s.heap.length) →
    (∀ j ∈ FR, ∀ x ∈ FL, j ≠ x.1) →
    s.nilIdx ∉ FR →
    s.errorIdx ∉ FR →
    s.nilIdx < s.heap.length →
    s.nilIdx ≠ s.errorIdx →
    blistOkB s FR blist0 = true →
    FL.length < fuel →
    ∃ s' blist' cl' sps prs,
      evalLambdaLoop fuel s argn none blist0 cell0 count0 =
        Except.ok (s', blist', count0 + FL.length, cl') ∧
      sps.length = FL.length ∧ prs.length = FL.length ∧
      (FL = [] → s' = s ∧ blist' = blist0 ∧ cl' = cell0) ∧
      (FL ≠ [] → cl' = some s.nilIdx) ∧
      (∀ x ∈ List.zip prs (FL.map Prod.snd),
        heapAt s' x.1 =
          some ⟨Slot.ptr x.2, Slot.ptr (some s.nilIdx), CellType.list, false⟩) ∧
      (FL ≠ [] → SpineChain s'
        (if blist0 = some s.nilIdx then none else blist0) blist'
        ((List.zip sps prs).reverse)) ∧
      (∀ j, j ∉ FR → heapAt s' j = heapAt s j) ∧
      s'.nilIdx = s.nilIdx ∧ s'.errorIdx = s.errorIdx ∧
      s'.protect = s.protect ∧ s'.bindingList = s.bindingList ∧
      s'.heap.length = s.heap.length := by
  induction FL with
  | nil =>
    intro fuel s argn blist0 cell0 count0 FR hargs hfree hlen hnd hval hdisj
      hnfr herfr hnv hnerr hbv hfuel
    cases fuel with
    | zero => exact absurd hfuel (by simp)
    | succ fu =>
      refine ⟨s, blist0, cell0, [], [], ?_, rfl, rfl,
        fun _ => ⟨rfl, rfl, rfl⟩, fun h => absurd rfl h, by simp,
        fun h => absurd rfl h, fun j _ => rfl, rfl, rfl, rfl, rfl, rfl⟩
      rcases argnChainB_nil_elim hargs with h | h <;> subst h <;>
        simp [evalLambdaLoop]
  | cons hd rest ih =>
    obtain ⟨i, fa⟩ := hd
    intro fuel s argn blist0 cell0 count0 FR hargs hfree hlen hnd hval hdisj
      hnfr herfr hnv hnerr hbv hfuel
    obtain ⟨hargn, hin, ca, hca, hcaar, q, hcadr, hargs'⟩ :=
      argnChainB_cons_elim hargs
    subst hargn
    cases fuel with
    | zero => exact absurd hfuel (by simp)
    | succ fu =>
    match FR, hlen with
    | f1 :: f2 :: FR2, hlen =>
    obtain ⟨hfl1, c1, hc1, q1, hcar1, hfree1⟩ := freePreB_cons_elim hfree
    obtain ⟨hq1, c2, hc2, q2, hcar2, hfree2⟩ := freePreB_cons_elim hfree1
    subst hq1
    obtain ⟨bi, hblist0, hbx⟩ := blistOkB_elim hbv
    subst hblist0
    -- distinctness and validity facts
    have hnd1 : f1 ∉ f2 :: FR2 := (List.nodup_cons.mp hnd).1
    have hnd2 : (f2 :: FR2).Nodup := (List.nodup_cons.mp hnd).2
    have hd12 : f1 ≠ f2 := fun h => hnd1 (h ▸ List.mem_cons_self f2 FR2)
    have hf1FR2 : f1 ∉ FR2 := fun h => hnd1 (List.mem_cons_of_mem _ h)
    have hf2FR2 : f2 ∉ FR2 := (List.nodup_cons.mp hnd2).1
    have hm1 : f1 ∈ f1 :: f2 :: FR2 := List.mem_cons_self _ _
    have hm2 : f2 ∈ f1 :: f2 :: FR2 := List.mem_cons_of_mem _ (List.mem_cons_self _ _)
    have hmx : (i, fa) ∈ (i, fa) :: rest := List.mem_cons_self _ _
    have hdi1 : f1 ≠ i := hdisj f1 hm1 (i, fa) hmx
    have hdi2 : f2 ≠ i := hdisj f2 hm2 (i, fa) hmx
    have hf1e : f1 ≠ s.errorIdx := fun h => herfr (h ▸ hm1)
    have hf2e : f2 ≠ s.errorIdx := fun h => herfr (h ▸ hm2)
    have hf1n : f1 ≠ s.nilIdx := fun h => hnfr (h ▸ hm1)
    have hf2n : f2 ≠ s.nilIdx := fun h => hnfr (h ▸ hm2)
    have hv1 : f1 < s.heap.length := hval f1 hm1
    have hv2 : f2 < s.heap.length := hval f2 hm2
    -- the cons target bi: a cell, list-typed or nil, not error, fresh
    have hbx' : ∃ bc, heapAt s bi = some bc ∧
        (bc.type = CellType.list ∨ bi = s.nilIdx) ∧
        bi ≠ s.errorIdx ∧ bi ∉ f1 :: f2 :: FR2 := by
      rcases hbx with h | ⟨bc, hbc, hbty, hbe, hbm⟩
      · subst h
        refine ⟨s.heap.get ⟨s.nilIdx, hnv⟩, ?_, Or.inr rfl, hnerr, hnfr⟩
        simp [heapAt, List.get?_eq_getElem?, List.getElem?_eq_getElem hnv]
      · exact ⟨bc, hbc, Or.inl hbty, hbe, hbm⟩
    obtain ⟨bc, hbc, hbty, hbe, hbm⟩ := hbx'
    have hb1 : bi ≠ f1 := fun h => hbm (h ▸ hm1)
    have hb2 : bi ≠ f2 := fun h => hbm (h ▸ hm2)
    -- one loop iteration
    have hstep := evalLambdaLoop_step_nil fu s i fa q bi cell0 count0 f1 f2 q2
      ca c1 c2 bc hin hca hcaar hcadr hfl1 hc1 hcar1 hc2 hcar2 hd12 hdi1 hdi2
      hb1 hb2 hbc hbty hf1e hbe
    set Acell : Cell :=
      ⟨.ptr fa, .ptr (some s.nilIdx), .list, false⟩ with hAcell
    set Bcell : Cell :=
      ⟨.ptr (some f1),
       if bi = s.nilIdx then Slot.ptr none else Slot.ptr (some bi),
       .list, false⟩ with hBcell
    set s7 : State :=
      { s with heap := (s.heap.set f1 Acell).set f2 Bcell, freeList := q2 }
      with hs7
    -- heap frame of the iteration
    have hframe7 : ∀ j, j ≠ f1 → j ≠ f2 → heapAt s7 j = heapAt s j := by
      intro j h1 h2
      simp [hs7, heapAt, List.get?_eq_getElem?,
        List.getElem?_set_ne (Ne.symm h2), List.getElem?_set_ne (Ne.symm h1)]
    have hlen7 : s7.heap.length = s.heap.length := by
      simp [hs7, List.length_set]
    have hf17 : heapAt s7 f1 = some Acell := by
      simp [hs7, heapAt, List.get?_eq_getElem?,
        List.getElem?_set_ne (Ne.symm hd12),
        List.getElem?_set_eq_of_lt, hv1]
    have hf27 : heapAt s7 f2 = some Bcell := by
      simp [hs7, heapAt, List.get?_eq_getElem?,
        List.getElem?_set_eq_of_lt, List.length_set, hv2]
    -- transfer the hypotheses to the post-iteration state
    have hargs7 : argnChainB s7 q rest = true := by
      refine argnChainB_frame (show s7.nilIdx = s.nilIdx from rfl) rest ?_ hargs'
      intro x hx
      exact hframe7 x.1
        (Ne.symm (hdisj f1 hm1 x (List.mem_cons_of_mem _ hx)))
        (Ne.symm (hdisj f2 hm2 x (List.mem_cons_of_mem _ hx)))
    have hfree7 : freePreB s7 s7.freeList FR2 = true := by
      have : s7.freeList = q2 := rfl
      rw [this]
      refine freePreB_frame FR2 ?_ hfree2
      intro x hx
      exact hframe7 x (fun h => hf1FR2 (h ▸ hx)) (fun h => hf2FR2 (h ▸ hx))
    have hbv7 : blistOkB s7 FR2 (some f2) = true := by
      simp [blistOkB, hf27, hBcell, hf2e, hf2FR2]
    have hih := ih fu s7 q (some f2) (some s.nilIdx) (count0 + 1) FR2
      hargs7 hfree7 (by simp at hlen ⊢; omega) (List.nodup_cons.mp hnd2).2
      (fun j hj => hlen7 ▸ hval j (List.mem_cons_of_mem _ (List.mem_cons_of_mem _ hj)))
      (fun j hj x hx => hdisj j
        (List.mem_cons_of_mem _ (List.mem_cons_of_mem _ hj)) x
        (List.mem_cons_of_mem _ hx))
      (fun h => hnfr (List.mem_cons_of_mem _ (List.mem_cons_of_mem _ h)))
      (fun h => herfr (List.mem_cons_of_mem _ (List.mem_cons_of_mem _ h)))
      (hlen7 ▸ hnv) hnerr hbv7 (by simp at hfuel ⊢; omega)
    obtain ⟨s', blist', cl', sps', prs', hrun', hls, hlp, hnilc, hconsc,
      hpairs, hchain', hframe', hnil', herr', hprot', hbind', hlen'⟩ := hih
    have hcount : count0 + 1 + (rest.length : Int) =
        count0 + (((i, fa) :: rest).length : Int) := by
      simp
      omega
    refine ⟨s', blist', cl', f2 :: sps', f1 :: prs', ?_, ?_, ?_, ?_, ?_, ?_,
      ?_, ?_, ?_, ?_, ?_, ?_, ?_⟩
    · rw [hstep, hrun', hcount]
    · simp [hls]
    · simp [hlp]
    · intro h
      exact absurd h (by simp)
    · intro _
      by_cases hr : rest = []
      · exact (hnilc hr).2.2
      · exact hconsc hr
    · intro x hx
      simp only [List.map_cons, List.zip_cons_cons, List.mem_cons] at hx
      rcases hx with hx | hx
      · subst hx
        have : heapAt s' f1 = heapAt s7 f1 := hframe' f1 hf1FR2
        rw [this, hf17]
      · have := hpairs x hx
        simpa using this
    · intro _
      have hchainA : SpineChain s' (some f2) blist'
          ((List.zip sps' prs').reverse) := by
        by_cases hr : rest = []
        · obtain ⟨hs'eq, hbl'eq, _⟩ := hnilc hr
          subst hr
          have h0 : sps' = [] := List.length_eq_zero.mp (by simpa using hls)
          have h1 : prs' = [] := List.length_eq_zero.mp (by simpa using hlp)
          subst h0; subst h1
          simpa [SpineChain] using hbl'eq
        · have h := hchain' hr
          have : (if (some f2 : Option Nat) = some s7.nilIdx then none
              else some f2) = some f2 := by
            have : s7.nilIdx = s.nilIdx := rfl
            simp [this, hf2n]
          rwa [this] at h
      have hf2s' : heapAt s' f2 = some Bcell := by
        rw [hframe' f2 hf2FR2, hf27]
      have hBcdr : Bcell.cdr =
          Slot.ptr (if bi = s.nilIdx then none else some bi) := by
        by_cases h : bi = s.nilIdx <;> simp [hBcell, h]
      have happ := SpineChain_append hf2s' rfl rfl hBcdr
        ((List.zip sps' prs').reverse) hchainA
      by_cases hbin : bi = s.nilIdx
      · simp only [List.zip_cons_cons, List.reverse_cons]
        simp only [hbin, if_pos rfl] at happ ⊢
        exact happ
      · simp only [List.zip_cons_cons, List.reverse_cons]
        rw [if_neg (by simpa using hbin)]
        simp only [if_neg hbin] at happ
        exact happ
    · intro j hj
      have hj2 : j ∉ FR2 := fun h => hj (List.mem_cons_of_mem _ (List.mem_cons_of_mem _ h))
      have hjf1 : j ≠ f1 := fun h => hj (h ▸ hm1)
      have hjf2 : j ≠ f2 := fun h => hj (h ▸ hm2)
      rw [hframe' j hj2, hframe7 j hjf1 hjf2]
    · exact hnil'
    · exact herr'
    · exact hprot'
    · exact hbind'
    · rw [hlen', hlen7]

/-- C10: in the argument loop of `eval_lambda`, (a) when the actuals are
exhausted (`argv == NULL`) every remaining formal of the chain is bound
to the empty list — a fresh pair cell holding the formal and the empty
list is consed onto the temporary binding list, the binding count rises
by one per formal, and no error is produced; (b) when the formals are
exhausted (`argn == NULL` or the empty list) the loop returns at once
with state, temporary list, count and value unchanged, for every list of
remaining actuals — surplus actuals are neither evaluated nor bound. -/
theorem C10_surplus_formals_bound_to_nil (FL : List (Nat × Option Nat))
    (fuel : Nat) (s : State) (argn blist0 cell0 : Option Nat)
    (count0 : Int) (FR : List Nat)
    (hargs : argnChainB s argn FL = true)
    (hfree : freePreB s s.freeList FR = true)
    (hlen : 2 * FL.length ≤ FR.length)
    (hnd : FR.Nodup)
    (hval : ∀ j ∈ FR, j < s.heap.length)
    (hdisj : ∀ j ∈ FR, ∀ x ∈ FL, j ≠ x.1)
    (hnfr : s.nilIdx ∉ FR)
    (herfr : s.errorIdx ∉ FR)
    (hnv : s.nilIdx < s.heap.length)
    (hnerr : s.nilIdx ≠ s.errorIdx)
    (hbv : blistOkB s FR blist0 = true)
    (hfuel : FL.length < fuel) :
    (∃ s' blist' cl' sps prs,
      evalLambdaLoop fuel s argn none blist0 cell0 count0 =
        Except.ok (s', blist', count0 + FL.length, cl') ∧
      sps.length = FL.length ∧ prs.length = FL.length ∧
      (FL = [] → s' = s ∧ blist' = blist0 ∧ cl' = cell0) ∧
      (FL ≠ [] → cl' = some s.nilIdx) ∧
      (∀ x ∈ List.zip prs (FL.map Prod.snd),
        heapAt s' x.1 =
          some ⟨Slot.ptr x.2, Slot.ptr (some s.nilIdx), CellType.list, false⟩) ∧
      (FL ≠ [] → SpineChain s'
        (if blist0 = some s.nilIdx then none else blist0) blist'
        ((List.zip sps prs).reverse)) ∧
      (∀ j, j ∉ FR → heapAt s' j = heapAt s j) ∧
      s'.nilIdx = s.nilIdx ∧ s'.errorIdx = s.errorIdx ∧
      s'.protect = s.protect ∧ s'.bindingList = s.bindingList ∧
      s'.heap.length = s.heap.length) ∧
    (∀ (fuel2 : Nat) (t : State) (argv blist cell : Option Nat) (count : Int),
      evalLambdaLoop (fuel2 + 1) t none argv blist cell count =
        Except.ok (t, blist, count, cell) ∧
      evalLambdaLoop (fuel2 + 1) t (some t.nilIdx) argv blist cell count =
        Except.ok (t, blist, count, cell)) := by
  refine ⟨evalLambdaLoop_binds_nil FL fuel s argn blist0 cell0 count0 FR
    hargs hfree hlen hnd hval hdisj hnfr herfr hnv hnerr hbv hfuel, ?_⟩
  intro fuel2 t argv blist cell count
  constructor <;> simp [evalLambdaLoop]

/-- Concrete state for the C10 witness: a formal chain `(x y)` in cells
3–4, four free cells 5–8, the empty list in cell 0 and the error cell
in cell 9. -/
def wsC10 : State :=
  { heap := [⟨.name "nil", .ptr none, .atom, false⟩,
             ⟨.name "x", .ptr none, .atom, false⟩,
             ⟨.name "y", .ptr none, .atom, false⟩,
             ⟨.ptr (some 1), .ptr (some 4), .list, false⟩,
             ⟨.ptr (some 2), .ptr none, .list, false⟩,
             ⟨.ptr (some 6), .ptr none, .list, false⟩,
             ⟨.ptr (some 7), .ptr none, .list, false⟩,
             ⟨.ptr (some 8), .ptr none, .list, false⟩,
             ⟨.ptr none, .ptr none, .list, false⟩,
             ⟨.name "<error>", .ptr none, .atom, false⟩],
    freeList := some 5, bindingList := some 0, protect := [],
    nilIdx := 0, errorIdx := 9, trueIdx := 0, quoteIdx := 0, diags := 0 }

/-- Witness for C10 at a concrete input: binding the two formals `x`,
`y` of `wsC10` with no actuals left. -/
theorem C10_witness :
    (∃ s' blist' cl' sps prs,
      evalLambdaLoop 3 wsC10 (some 3) none (some 0) none 0 =
        Except.ok (s', blist',
          0 + (([(3, some 1), (4, some 2)] : List (Nat × Option Nat)).length : Int),
          cl') ∧
      sps.length = ([(3, some 1), (4, some 2)] : List (Nat × Option Nat)).length ∧
      prs.length = ([(3, some 1), (4, some 2)] : List (Nat × Option Nat)).length ∧
      (([(3, some 1), (4, some 2)] : List (Nat × Option Nat)) = [] →
        s' = wsC10 ∧ blist' = some 0 ∧ cl' = none) ∧
      (([(3, some 1), (4, some 2)] : List (Nat × Option Nat)) ≠ [] →
        cl' = some wsC10.nilIdx) ∧
      (∀ x ∈ List.zip prs
          (([(3, some 1), (4, some 2)] : List (Nat × Option Nat)).map Prod.snd),
        heapAt s' x.1 =
          some ⟨Slot.ptr x.2, Slot.ptr (some wsC10.nilIdx), CellType.list, false⟩) ∧
      (([(3, some 1), (4, some 2)] : List (Nat × Option Nat)) ≠ [] →
        SpineChain s'
          (if (some 0 : Option Nat) = some wsC10.nilIdx then none else some 0)
          blist' ((List.zip sps prs).reverse)) ∧
      (∀ j, j ∉ ([5, 6, 7, 8] : List Nat) → heapAt s' j = heapAt wsC10 j) ∧
      s'.nilIdx = wsC10.nilIdx ∧ s'.errorIdx = wsC10.errorIdx ∧
      s'.protect = wsC10.protect ∧ s'.bindingList = wsC10.bindingList ∧
      s'.heap.length = wsC10.heap.length) ∧
    (∀ (fuel2 : Nat) (t : State) (argv blist cell : Option Nat) (count : Int),
      evalLambdaLoop (fuel2 + 1) t none argv blist cell count =
        Except.ok (t, blist, count, cell) ∧
      evalLambdaLoop (fuel2 + 1) t (some t.nilIdx) argv blist cell count =
        Except.ok (t, blist, count, cell)) :=
  C10_surplus_formals_bound_to_nil [(3, some 1), (4, some 2)] 3 wsC10
    (some 3) (some 0) none 0 [5, 6, 7, 8]
    (by decide) (by decide) (by decide) (by decide) (by decide) (by decide)
    (by decide) (by decide) (by decide) (by decide) (by decide) (by decide)

/-! ## Claim C4: push/pop balance of lambda application -/

theorem BChain_append {s : State} {q' : Option Nat} {n : Nat} {c : Cell}
    (hc : heapAt s n = some c) (hcdr : c.cdr = Slot.ptr q') :
    ∀ {p : Option Nat} (L : List Nat),
    BChain s (some n) p L → BChain s q' p (L ++ [n]) := by
  intro p L
  induction L generalizing p with
  | nil =>
    intro h
    exact ⟨h, c, hc, q', hcdr, rfl⟩
  | cons m rest ih =>
    intro h
    obtain ⟨hp, c2, hc2, q2, hcd2, hrest⟩ := h
    exact ⟨hp, c2, hc2, q2, hcd2, ih hrest⟩

/-- The pop loop of `eval_lambda`: walking a cdr-linked chain of spine
cells `NS` from the binding list head, popping `NS.length` of them lands
the binding list exactly at the chain's end. -/
theorem popBindings_of_BChain (NS : List Nat) :
    ∀ (s : State) (stop : Option Nat),
    BChain s stop s.bindingList NS →
    popBindings NS.length s = Except.ok { s with bindingList := stop } := by
  induction NS with
  | nil =>
    intro s stop h
    have hb : s.bindingList = stop := h
    rw [← hb]
    rfl
  | cons n ns ih =>
    intro s stop h
    obtain ⟨hp, c, hc, q, hcdr, hrest⟩ := h
    have hc' : s.heap[n]? = some c := by
      rw [← List.get?_eq_getElem?]
      exact hc
    have hstep : popBindings (n :: ns).length s =
        popBindings ns.length { s with bindingList := q } := by
      simp [popBindings, hp, cdrPtr, getCell, List.get?_eq_getElem?, hc', hcdr]
    rw [hstep]
    have hrest' : BChain { s with bindingList := q } stop q ns :=
      BChain_frame ns
        (fun x _ => show heapAt { s with bindingList := q } x = heapAt s x from rfl)
        hrest
    have := ih { s with bindingList := q } stop hrest'
    simpa using this

set_option maxHeartbeats 2000000 in
/-- One pass of the binding-push loop: the pair carried by the next
temporary-list spine is consed onto the global binding list using the
fresh free cell `f1`, and the loop recurses along the temporary list. -/
theorem pushBindings_step (fu : Nat) (s : State) (sp pr b0 f1 : Nat)
    (q q1 : Option Nat) (c c1 bc : Cell)
    (hsp : sp ≠ s.nilIdx)
    (hc : heapAt s sp = some c) (hcar : c.car = Slot.ptr (some pr))
    (hcdr : c.cdr = Slot.ptr q)
    (hb : s.bindingList = some b0) (hbc : heapAt s b0 = some bc)
    (hbty : bc.type = CellType.list)
    (hbn : b0 ≠ s.nilIdx) (hbe : b0 ≠ s.errorIdx)
    (hpre : pr ≠ s.errorIdx)
    (hfree : s.freeList = some f1)
    (hc1 : heapAt s f1 = some c1) (hcar1 : c1.car = Slot.ptr q1)
    (hf1sp : f1 ≠ sp) :
    pushBindings (fu + 1) s (some sp) =
      pushBindings fu
        { s with
          heap := s.heap.set f1 ⟨.ptr (some pr), .ptr (some b0), .list, false⟩,
          freeList := q1, bindingList := some f1 } q := by
  simp only [heapAt, List.get?_eq_getElem?] at hc hbc hc1
  have hvsp : sp < s.heap.length := by
    by_contra h
    rw [List.getElem?_eq_none (Nat.le_of_not_lt h)] at hc
    exact Option.noConfusion hc
  have hvb : b0 < s.heap.length := by
    by_contra h
    rw [List.getElem?_eq_none (Nat.le_of_not_lt h)] at hbc
    exact Option.noConfusion hbc
  have hv1 : f1 < s.heap.length := by
    by_contra h
    rw [List.getElem?_eq_none (Nat.le_of_not_lt h)] at hc1
    exact Option.noConfusion hc1
  have hc' : s.heap[sp] = c := by
    have h := hc
    rwa [List.getElem?_eq_getElem hvsp, Option.some_inj] at h
  have hbc' : s.heap[b0] = bc := by
    have h := hbc
    rwa [List.getElem?_eq_getElem hvb, Option.some_inj] at h
  have hc1' : s.heap[f1] = c1 := by
    have h := hc1
    rwa [List.getElem?_eq_getElem hv1, Option.some_inj] at h
  simp [pushBindings, hsp, cons, newCell, protectPush, unprotectS, setCell,
    setCar, setCdr, getCell, carPtr, cdrPtr, heapAt, List.get?_eq_getElem?,
    hc, hcar, hcdr, hb, hbc, hbty, hbn, hbe, hpre, hfree, hc1, hcar1, hc',
    hbc', hc1', hf1sp, hf1sp.symm, hvsp, hvb, hv1,
    List.getElem?_set_ne, List.getElem?_set_eq_of_lt, List.length_set,
    List.set_set]

/-- The binding-push loop of `eval_lambda`: walking the temporary list
`L` of (spine, pair) cells with enough distinct fresh free cells, one
new spine per pair is consed onto the global binding list — exactly
`L.length` spines are prepended, cdr-chained from the new binding-list
head back to the old one — and the rest of the heap is untouched. -/
theorem pushBindings_spec (L : List (Nat × Nat)) :
    ∀ (fuel : Nat) (s : State) (blist stop : Option Nat) (FR : List Nat),
    SpineChain s stop blist L →
    (stop = none ∨ stop = some s.nilIdx) →
    freePreB s s.freeList FR = true →
    L.length ≤ FR.length →
    FR.Nodup →
    (∀ j ∈ FR, j < s.heap.length) →
    (∀ j ∈ FR, ∀ x ∈ L, j ≠ x.1 ∧ j ≠ x.2) →
    s.nilIdx ∉ FR →
    s.errorIdx ∉ FR →
    (∀ x ∈ L, x.2 ≠ s.errorIdx) →
    (∀ x ∈ L, x.1 ≠ s.nilIdx) →
    blistOkB s FR s.bindingList = true →
    s.bindingList ≠ some s.nilIdx →
    L.length < fuel →
    ∃ sP NS,
      pushBindings fuel s blist = Except.ok sP ∧
      NS.length = L.length ∧
      (∀ j ∈ NS, j ∈ FR) ∧
      BChain sP s.bindingList sP.bindingList NS ∧
      (∀ j, j ∉ FR → heapAt sP j = heapAt s j) ∧
      sP.nilIdx = s.nilIdx ∧ sP.errorIdx = s.errorIdx ∧
      sP.protect = s.protect ∧ sP.heap.length = s.heap.length ∧
      sP.diags = s.diags := by
  induction L with
  | nil =>
    intro fuel s blist stop FR hchain hstop hfree hlen hnd hval hdisj hnfr
      herfr hpr hspn hbl hblne hfuel
    cases fuel with
    | zero => exact absurd hfuel (by simp)
    | succ fu =>
      have hb : blist = stop := hchain
      subst hb
      refine ⟨s, [], ?_, rfl, by simp, rfl, fun j _ => rfl, rfl, rfl, rfl,
        rfl, rfl⟩
      rcases hstop with h | h <;> subst h <;> simp [pushBindings]
  | cons hd rest ih =>
    obtain ⟨sp, pr⟩ := hd
    intro fuel s blist stop FR hchain hstop hfree hlen hnd hval hdisj hnfr
      herfr hpr hspn hbl hblne hfuel
    obtain ⟨hbv, c, hc, hcar, hcty, q, hcdr, hchain'⟩ := hchain
    subst hbv
    cases fuel with
    | zero => exact absurd hfuel (by simp)
    | succ fu =>
    match FR, hlen with
    | f1 :: FR1, hlen =>
    obtain ⟨hfl1, c1, hc1, q1, hcar1, hfree1⟩ := freePreB_cons_elim hfree
    obtain ⟨b0, hb0, hbx⟩ := blistOkB_elim hbl
    have hbnn : b0 ≠ s.nilIdx := by
      intro h
      exact hblne (hb0.trans (by rw [h]))
    obtain ⟨bc, hbc, hbty, hbe, hbm⟩ := hbx.resolve_left hbnn
    have hm1 : f1 ∈ f1 :: FR1 := List.mem_cons_self _ _
    have hmx : (sp, pr) ∈ (sp, pr) :: rest := List.mem_cons_self _ _
    have hf1FR1 : f1 ∉ FR1 := (List.nodup_cons.mp hnd).1
    have hf1sp : f1 ≠ sp := (hdisj f1 hm1 (sp, pr) hmx).1
    have hf1n : f1 ≠ s.nilIdx := fun h => hnfr (h ▸ hm1)
    have hf1e : f1 ≠ s.errorIdx := fun h => herfr (h ▸ hm1)
    have hv1 : f1 < s.heap.length := hval f1 hm1
    have hsp : sp ≠ s.nilIdx := hspn (sp, pr) hmx
    have hpre : pr ≠ s.errorIdx := hpr (sp, pr) hmx
    have hstep := pushBindings_step fu s sp pr b0 f1 q q1 c c1 bc hsp hc
      hcar hcdr hb0 hbc hbty hbnn hbe hpre hfl1 hc1 hcar1 hf1sp
    set SCell : Cell := ⟨.ptr (some pr), .ptr (some b0), .list, false⟩
      with hSCell
    set s1 : State :=
      { s with heap := s.heap.set f1 SCell, freeList := q1, bindingList := some f1 }
      with hs1
    have hframe1 : ∀ j, j ≠ f1 → heapAt s1 j = heapAt s j := by
      intro j h1
      simp [hs1, heapAt, List.get?_eq_getElem?,
        List.getElem?_set_ne (Ne.symm h1)]
    have hlen1 : s1.heap.length = s.heap.length := by
      simp [hs1, List.length_set]
    have hf1s1 : heapAt s1 f1 = some SCell := by
      simp [hs1, heapAt, List.get?_eq_getElem?,
        List.getElem?_set_eq_of_lt, hv1]
    have hchain1 : SpineChain s1 stop q rest := by
      refine SpineChain_frame rest ?_ hchain'
      intro x hx
      exact hframe1 x.1
        (Ne.symm (hdisj f1 hm1 x (List.mem_cons_of_mem _ hx)).1)
    have hfree1' : freePreB s1 s1.freeList FR1 = true := by
      refine freePreB_frame FR1 ?_ hfree1
      intro x hx
      exact hframe1 x (fun h => hf1FR1 (h ▸ hx))
    have hbl1 : blistOkB s1 FR1 s1.bindingList = true := by
      simp [blistOkB, hf1s1, hSCell, hf1e, hf1FR1]
    have hih := ih fu s1 q stop FR1 hchain1 hstop hfree1'
      (by simp at hlen ⊢; omega) (List.nodup_cons.mp hnd).2
      (fun j hj => hlen1 ▸ hval j (List.mem_cons_of_mem _ hj))
      (fun j hj x hx => hdisj j (List.mem_cons_of_mem _ hj) x
        (List.mem_cons_of_mem _ hx))
      (fun h => hnfr (List.mem_cons_of_mem _ h))
      (fun h => herfr (List.mem_cons_of_mem _ h))
      (fun x hx => hpr x (List.mem_cons_of_mem _ hx))
      (fun x hx => hspn x (List.mem_cons_of_mem _ hx))
      hbl1 (by simpa using hf1n) (by simp at hfuel ⊢; omega)
    obtain ⟨sP, NS1, hrun1, hlNS, hNSFR, hBC, hframeP, hnilP, herrP, hprotP,
      hlenP, hdiagP⟩ := hih
    have hf1sP : heapAt sP f1 = some SCell := by
      rw [hframeP f1 hf1FR1, hf1s1]
    have hBC' : BChain sP (some b0) sP.bindingList (NS1 ++ [f1]) :=
      BChain_append hf1sP rfl NS1 hBC
    refine ⟨sP, NS1 ++ [f1], ?_, ?_, ?_, ?_, ?_, hnilP, herrP, hprotP, ?_,
      hdiagP⟩
    · rw [hstep, hrun1]
    · simp [hlNS]
    · intro j hj
      rcases List.mem_append.mp hj with h | h
      · exact List.mem_cons_of_mem _ (hNSFR j h)
      · simp at h
        subst h
        exact hm1
    · rw [hb0]
      exact hBC'
    · intro j hj
      have hj1 : j ∉ FR1 := fun h => hj (List.mem_cons_of_mem _ h)
      have hjf1 : j ≠ f1 := fun h => hj (h ▸ hm1)
      rw [hframeP j hj1, hframe1 j hjf1]
    · rw [hlenP, hlen1]

theorem protectPush_nilIdx (s : State) (p : Option Nat) :
    (protectPush s p).nilIdx = s.nilIdx := rfl

theorem protectPush_errorIdx (s : State) (p : Option Nat) :
    (protectPush s p).errorIdx = s.errorIdx := rfl

theorem protectPush_freeList (s : State) (p : Option Nat) :
    (protectPush s p).freeList = s.freeList := rfl

theorem protectPush_bindingList (s : State) (p : Option Nat) :
    (protectPush s p).bindingList = s.bindingList := rfl

theorem protectPush_heap (s : State) (p : Option Nat) :
    (protectPush s p).heap = s.heap := rfl

theorem protectPush_heapAt (s : State) (p : Option Nat) (j : Nat) :
    heapAt (protectPush s p) j = heapAt s j := rfl

theorem protectPush_protect (s : State) (p : Option Nat) :
    (protectPush s p).protect = p :: s.protect := rfl

/-- C4: a lambda application pops exactly as many binding pairs as it
pushed.  Decomposing the run of `eval_lambda` — the argument loop
produced the temporary list `L` of (spine, pair) cells and the count
`count` with `L.length = |count|` — the push loop prepends exactly
`L.length` pairs to the global binding list, and on both paths the
application then pops exactly `|count|` = `L.length` of them, landing
the binding list where the push started: on the error path (an actual
evaluated to the ERROR sentinel, so the count was negated) the body is
skipped and the loop's ERROR value is returned; on the normal path the
body's value is returned for every body evaluation that preserves the
binding-list head and the pushed spine cells. -/
theorem C4_bindings_pushed_equal_popped
    (fuel : Nat) (s sL : State) (eIdx fIdx : Nat) (ec fc : Cell)
    (argn argv blist cell : Option Nat) (count : Int)
    (L : List (Nat × Nat)) (FR : List Nat) (stop : Option Nat)
    (hfc : heapAt s fIdx = some fc) (hfccar : fc.car = Slot.ptr argn)
    (hec : heapAt s eIdx = some ec) (heccdr : ec.cdr = Slot.ptr argv)
    (hloop : evalLambdaLoop fuel
        (protectPush (protectPush s (some eIdx)) (some fIdx)) argn argv
        (some s.nilIdx) none 0 = Except.ok (sL, blist, count, cell))
    (hcnt : L.length = count.natAbs)
    (hchain : SpineChain sL stop blist L)
    (hstop : stop = none ∨ stop = some sL.nilIdx)
    (hfreeL : freePreB sL sL.freeList FR = true)
    (hFRlen : L.length ≤ FR.length)
    (hndFR : FR.Nodup)
    (hvalFR : ∀ j ∈ FR, j < sL.heap.length)
    (hdisjFR : ∀ j ∈ FR, ∀ x ∈ L, j ≠ x.1 ∧ j ≠ x.2)
    (hnFR : sL.nilIdx ∉ FR) (heFR : sL.errorIdx ∉ FR)
    (hpr : ∀ x ∈ L, x.2 ≠ sL.errorIdx)
    (hspn : ∀ x ∈ L, x.1 ≠ sL.nilIdx)
    (hbl : blistOkB sL FR sL.bindingList = true)
    (hblne : sL.bindingList ≠ some sL.nilIdx)
    (hprotL : sL.protect = some fIdx :: some eIdx :: s.protect)
    (hfuelL : L.length < fuel) :
    ∃ sP NS,
      pushBindings fuel (protectPush sL blist) blist = Except.ok sP ∧
      NS.length = L.length ∧ NS.length = count.natAbs ∧
      BChain sP sL.bindingList sP.bindingList NS ∧
      sP.protect = blist :: some fIdx :: some eIdx :: s.protect ∧
      (¬(0 ≤ count ∧ cell ≠ some sP.errorIdx) →
        evalLambda (fuel + 1) s eIdx fIdx =
          Except.ok (cell,
            { sP with bindingList := sL.bindingList, protect := s.protect })) ∧
      (∀ (r : Option Nat) (sB : State) (bodyP : Option Nat) (fc2 : Cell),
        (0 ≤ count ∧ cell ≠ some sP.errorIdx) →
        heapAt sP fIdx = some fc2 → fc2.cdr = Slot.ptr bodyP →
        evalLisp fuel sP bodyP = Except.ok (r, sB) →
        sB.bindingList = sP.bindingList →
        (∀ j ∈ NS, heapAt sB j = heapAt sP j) →
        sB.protect = sP.protect →
        evalLambda (fuel + 1) s eIdx fIdx =
          Except.ok (r,
            { sB with bindingList := sL.bindingList, protect := s.protect })) := by
  have hpush := pushBindings_spec L fuel (protectPush sL blist) blist stop FR
    (SpineChain_frame L
      (fun x _ => show heapAt (protectPush sL blist) x.1 = heapAt sL x.1 from rfl)
      hchain)
    (by simpa [protectPush_nilIdx] using hstop)
    (by simpa [protectPush_freeList, protectPush_heapAt] using
      freePreB_frame FR (fun x _ => protectPush_heapAt sL blist x) hfreeL)
    hFRlen hndFR
    (by simpa [protectPush_heap] using hvalFR)
    hdisjFR
    (by simpa [protectPush_nilIdx] using hnFR)
    (by simpa [protectPush_errorIdx] using heFR)
    (by simpa [protectPush_errorIdx] using hpr)
    (by simpa [protectPush_nilIdx] using hspn)
    (by
      have hb : blistOkB (protectPush sL blist) FR sL.bindingList = true := by
        have hh := blistOkB_elim hbl
        obtain ⟨bi, hbi, hx⟩ := hh
        rw [hbi]
        rcases hx with h | ⟨c, hc, ht, he, hm⟩
        · simp [blistOkB, protectPush_nilIdx, h]
        · simp [blistOkB, protectPush_nilIdx, protectPush_errorIdx,
            protectPush_heapAt, hc, ht, he, hm]
      simpa [protectPush_bindingList] using hb)
    (by simpa [protectPush_bindingList, protectPush_nilIdx] using hblne)
    hfuelL
  obtain ⟨sP, NS, hpushEq, hlNS, hNSFR, hBC, hframeP, hnilP, herrP, hprotP,
    hlenP, hdiagP⟩ := hpush
  have hprotP' : sP.protect = blist :: some fIdx :: some eIdx :: s.protect := by
    rw [hprotP]
    show blist :: sL.protect = _
    rw [hprotL]
  have hNScnt : NS.length = count.natAbs := hlNS.trans hcnt
  have hBC' : BChain sP sL.bindingList sP.bindingList NS := hBC
  have hfcE : s.heap[fIdx]? = some fc := by
    rw [← List.get?_eq_getElem?]
    exact hfc
  have hecE : s.heap[eIdx]? = some ec := by
    rw [← List.get?_eq_getElem?]
    exact hec
  have hg1 : getCell s fIdx = Except.ok fc := by
    simp [getCell, List.get?_eq_getElem?, hfcE]
  have hg2 : getCell s eIdx = Except.ok ec := by
    simp [getCell, List.get?_eq_getElem?, hecE]
  refine ⟨sP, NS, hpushEq, hlNS, hNScnt, hBC', hprotP', ?_, ?_⟩
  · intro hneg
    have hpop : popBindings count.natAbs sP =
        Except.ok { sP with bindingList := sL.bindingList } := by
      rw [← hNScnt]
      exact popBindings_of_BChain NS sP sL.bindingList hBC'
    simp [evalLambda, hg1, hfccar, hg2, heccdr, protectPush_nilIdx, hloop,
      hpushEq, hneg, hpop, unprotectS, hprotP']
  · intro r sB bodyP fc2 hcond hfc2 hfc2cdr hbody hbind hfr hbprot
    have hBCB : BChain sB sL.bindingList sB.bindingList NS := by
      have := BChain_frame NS hfr hBC'
      rwa [hbind]
    have hpop : popBindings count.natAbs sB =
        Except.ok { sB with bindingList := sL.bindingList } := by
      rw [← hNScnt]
      exact popBindings_of_BChain NS sB sL.bindingList hBCB
    have hfc2E : sP.heap[fIdx]? = some fc2 := by
      rw [← List.get?_eq_getElem?]
      exact hfc2
    have hgP : getCell sP fIdx = Except.ok fc2 := by
      simp [getCell, List.get?_eq_getElem?, hfc2E]
    simp [evalLambda, hg1, hfccar, hg2, heccdr, protectPush_nilIdx, hloop,
      hpushEq, hcond, hgP, hfc2cdr, hbody, hpop, unprotectS, hprotP', hbprot]

/-- Concrete state for the C4 witness: binding list `{nil, t, <error>}`
(cells 0–8), a lambda `(lambda (x y) t)` in cells 9–12 and 16, the
application `((lambda (x y) t) t z)` in cells 14–15 and 17 with `z`
unbound (cell 13), and free cells 18–21.  Evaluating the second actual
`z` produces the ERROR sentinel partway through the argument loop. -/
def wsC4 : State :=
  { heap := [⟨.name "nil", .ptr none, .atom, false⟩,
             ⟨.ptr (some 0), .ptr (some 0), .list, false⟩,
             ⟨.ptr (some 1), .ptr none, .list, false⟩,
             ⟨.name "t", .ptr none, .atom, false⟩,
             ⟨.ptr (some 3), .ptr (some 3), .list, false⟩,
             ⟨.ptr (some 4), .ptr (some 2), .list, false⟩,
             ⟨.name "<error>", .ptr none, .atom, false⟩,
             ⟨.ptr (some 6), .ptr (some 6), .list, false⟩,
             ⟨.ptr (some 7), .ptr (some 5), .list, false⟩,
             ⟨.name "x", .ptr none, .atom, false⟩,
             ⟨.name "y", .ptr none, .atom, false⟩,
             ⟨.ptr (some 9), .ptr (some 12), .list, false⟩,
             ⟨.ptr (some 10), .ptr none, .list, false⟩,
             ⟨.name "z", .ptr none, .atom, false⟩,
             ⟨.ptr (some 3), .ptr (some 15), .list, false⟩,
             ⟨.ptr (some 13), .ptr none, .list, false⟩,
             ⟨.ptr (some 11), .ptr (some 3), .lambda, false⟩,
             ⟨.ptr (some 16), .ptr (some 14), .list, false⟩,
             ⟨.ptr (some 19), .ptr none, .list, false⟩,
             ⟨.ptr (some 20), .ptr none, .list, false⟩,
             ⟨.ptr (some 21), .ptr none, .list, false⟩,
             ⟨.ptr none, .ptr none, .list, false⟩],
    freeList := some 18, bindingList := some 8, protect := [],
    nilIdx := 0, errorIdx := 6, trueIdx := 3, quoteIdx := 0, diags := 0 }

/-- The state after the argument loop of `eval_lambda` on `wsC4`: `x`
was bound to `t` (pair cell 18, temporary spine cell 19), then the
actual `z` evaluated to the ERROR sentinel, so the loop stopped with
count `-1` and value ERROR. -/
def wsC4L : State :=
  { heap := [⟨.name "nil", .ptr none, .atom, false⟩,
             ⟨.ptr (some 0), .ptr (some 0), .list, false⟩,
             ⟨.ptr (some 1), .ptr none, .list, false⟩,
             ⟨.name "t", .ptr none, .atom, false⟩,
             ⟨.ptr (some 3), .ptr (some 3), .list, false⟩,
             ⟨.ptr (some 4), .ptr (some 2), .list, false⟩,
             ⟨.name "<error>", .ptr none, .atom, false⟩,
             ⟨.ptr (some 6), .ptr (some 6), .list, false⟩,
             ⟨.ptr (some 7), .ptr (some 5), .list, false⟩,
             ⟨.name "x", .ptr none, .atom, false⟩,
             ⟨.name "y", .ptr none, .atom, false⟩,
             ⟨.ptr (some 9), .ptr (some 12), .list, false⟩,
             ⟨.ptr (some 10), .ptr none, .list, false⟩,
             ⟨.name "z", .ptr none, .atom, false⟩,
             ⟨.ptr (some 3), .ptr (some 15), .list, false⟩,
             ⟨.ptr (some 13), .ptr none, .list, false⟩,
             ⟨.ptr (some 11), .ptr (some 3), .lambda, false⟩,
             ⟨.ptr (some 16), .ptr (some 14), .list, false⟩,
             ⟨.ptr (some 9), .ptr (some 3), .list, false⟩,
             ⟨.ptr (some 18), .ptr none, .list, false⟩,
             ⟨.ptr (some 21), .ptr none, .list, false⟩,
             ⟨.ptr none, .ptr none, .list, false⟩],
    freeList := some 20, bindingList := some 8,
    protect := [some 16, some 17],
    nilIdx := 0, errorIdx := 6, trueIdx := 3, quoteIdx := 0, diags := 1 }

/-- Witness for C4 at a concrete input: applying `(lambda (x y) t)` to
`(t z)` with `z` unbound pushes one binding pair (the count was negated
to `-1` by the error) and pops exactly one, returning the ERROR
sentinel with the binding list restored. -/
theorem C4_witness :
    ∃ sP NS,
      pushBindings 8 (protectPush wsC4L (some 19)) (some 19) =
        Except.ok sP ∧
      NS.length = ([(19, 18)] : List (Nat × Nat)).length ∧
      NS.length = (-1 : Int).natAbs ∧
      BChain sP wsC4L.bindingList sP.bindingList NS ∧
      sP.protect = some 19 :: some 16 :: some 17 :: wsC4.protect ∧
      (¬(0 ≤ (-1 : Int) ∧ (some 6 : Option Nat) ≠ some sP.errorIdx) →
        evalLambda (8 + 1) wsC4 17 16 =
          Except.ok (some 6,
            { sP with bindingList := wsC4L.bindingList, protect := wsC4.protect })) ∧
      (∀ (r : Option Nat) (sB : State) (bodyP : Option Nat) (fc2 : Cell),
        (0 ≤ (-1 : Int) ∧ (some 6 : Option Nat) ≠ some sP.errorIdx) →
        heapAt sP 16 = some fc2 → fc2.cdr = Slot.ptr bodyP →
        evalLisp 8 sP bodyP = Except.ok (r, sB) →
        sB.bindingList = sP.bindingList →
        (∀ j ∈ NS, heapAt sB j = heapAt sP j) →
        sB.protect = sP.protect →
        evalLambda (8 + 1) wsC4 17 16 =
          Except.ok (r,
            { sB with bindingList := wsC4L.bindingList, protect := wsC4.protect })) :=
  C4_bindings_pushed_equal_popped 8 wsC4 wsC4L 17 16
    ⟨.ptr (some 16), .ptr (some 14), .list, false⟩
    ⟨.ptr (some 11), .ptr (some 3), .lambda, false⟩
    (some 11) (some 14) (some 19) (some 6) (-1)
    [(19, 18)] [20] none
    (by decide) (by decide) (by decide) (by decide) (by decide) (by decide)
    ⟨rfl, ⟨.ptr (some 18), .ptr none, .list, false⟩, rfl, rfl, rfl, none,
      rfl, rfl⟩
    (Or.inl rfl)
    (by decide) (by decide) (by decide) (by decide) (by decide) (by decide)
    (by decide) (by decide) (by decide) (by decide) (by decide) (by decide)
    (by decide)

end Stutter
